import Mathlib

/-!
# Verification of the narrative-zoning analysis (`narrative_zoning.py`)

Shallow embedding of the zoning pipeline of
`publication.crate/narrative_zoning.py` from the CoastSat shoreline
publication repository, together with theorems settling the frozen claims
about it.

Modelling conventions:
* Python numbers appearing in transect properties, condition thresholds and
  zone aggregates are modelled as rationals (`ℚ`); `None` is `Option.none`.
  The ordering of finite Python floats is faithfully reflected by the order
  on `ℚ`.
* A Python dict used as a record is modelled as an association list; a
  subscript access `d[k]` is `dictGet` (raising `KeyError` when the key is
  absent) while `d.get(k)` is a total lookup.
* Fallible Python code returns `Except PyErr _`; `raise` is `Except.error`.
* Python's stable `sorted(..., key=...)` is modelled by Mathlib's
  `List.insertionSort`, which is stable for the total preorder induced by
  the sort key.
* `str.format` templates are modelled structurally as lists of chunks
  (literal text or a named placeholder with a format spec); rendering
  produces a list of tokens.
-/

/-- Python exception values relevant to the zoning pipeline. -/
inductive PyErr where
  | keyError (key : String)
  | valueError (msg : String)
  | typeError (msg : String)
deriving Repr, DecidableEq

/-- A single classification condition, as read from a zone-definition dict:
`field`, `operator`, `value` (the threshold, possibly `None`), and
`allow_null` (absent key modelled by the Python default `False`). -/
structure Condition where
  field : String
  op : String
  value : Option ℚ
  allow_null : Bool
deriving Repr, DecidableEq

/-- Embeds `evaluate_condition` (narrative_zoning.py lines 165-202).
The tested `value` is `none` when the property is missing or null.
Mirrors the source exactly: the null check precedes the operator dispatch,
comparisons against a `None` threshold raise `TypeError` (as in Python),
and an unknown operator raises `ValueError`. -/
def evaluate_condition (value : Option ℚ) (condition : Condition) : Except PyErr Bool :=
  let operator := condition.op
  let threshold := condition.value
  let allow_null := condition.allow_null
  match value with
  | none =>
      if operator = "is_null" then .ok true
      else .ok allow_null
  | some v =>
      if operator = "<" then
        match threshold with
        | some t => .ok (decide (v < t))
        | none => .error (.typeError "unsupported comparison with NoneType")
      else if operator = "<=" then
        match threshold with
        | some t => .ok (decide (v ≤ t))
        | none => .error (.typeError "unsupported comparison with NoneType")
      else if operator = ">" then
        match threshold with
        | some t => .ok (decide (v > t))
        | none => .error (.typeError "unsupported comparison with NoneType")
      else if operator = ">=" then
        match threshold with
        | some t => .ok (decide (v ≥ t))
        | none => .error (.typeError "unsupported comparison with NoneType")
      else if operator = "==" then
        .ok (decide (some v = threshold))
      else if operator = "!=" then
        .ok (!decide (some v = threshold))
      else if operator = "is_null" then
        .ok false
      else
        .error (.valueError ("Unknown operator: " ++ operator))

/-- The seven operators `evaluate_condition` knows. -/
def knownOperators : List String :=
  ["<", "<=", ">", ">=", "==", "!=", "is_null"]

/-- The four strict/loose comparison operators that need a numeric
threshold. -/
def comparisonOperators : List String := ["<", "<=", ">", ">="]

/-- A condition is well formed when its operator is known and, for the four
ordering comparisons, its threshold is an actual number. -/
def condOk (c : Condition) : Bool :=
  knownOperators.contains c.op &&
    (!comparisonOperators.contains c.op || c.value.isSome)

/-- Pure value of `evaluate_condition` on a well-formed condition. -/
def evalCondB (value : Option ℚ) (c : Condition) : Bool :=
  match value with
  | none => c.op = "is_null" || c.allow_null
  | some v =>
      if c.op = "<" then decide (v < c.value.getD 0)
      else if c.op = "<=" then decide (v ≤ c.value.getD 0)
      else if c.op = ">" then decide (v > c.value.getD 0)
      else if c.op = ">=" then decide (v ≥ c.value.getD 0)
      else if c.op = "==" then decide (some v = c.value)
      else if c.op = "!=" then !decide (some v = c.value)
      else false

theorem evaluate_condition_ok_of_condOk (c : Condition) (h : condOk c = true)
    (value : Option ℚ) : evaluate_condition value c = .ok (evalCondB value c) := by
  cases value with
  | none =>
      simp only [evaluate_condition, evalCondB]
      by_cases hn : c.op = "is_null" <;> simp [hn]
  | some v =>
      simp only [condOk, knownOperators, comparisonOperators, Bool.and_eq_true,
        Bool.or_eq_true, Bool.not_eq_true', List.contains, List.elem_eq_mem,
        List.mem_cons, List.not_mem_nil, decide_eq_true_eq, or_false,
        decide_eq_false_iff_not] at h
      obtain ⟨hop, hth⟩ := h
      have hcmp : (c.op = "<" ∨ c.op = "<=" ∨ c.op = ">" ∨ c.op = ">=") →
          ∃ t, c.value = some t := by
        intro hx
        rcases hth with h2 | h2
        · exact absurd hx h2
        · exact Option.isSome_iff_exists.mp h2
      rcases hop with h1 | h1 | h1 | h1 | h1 | h1 | h1
      · obtain ⟨t, ht⟩ := hcmp (Or.inl h1)
        simp [evaluate_condition, evalCondB, h1, ht]
      · obtain ⟨t, ht⟩ := hcmp (Or.inr (Or.inl h1))
        simp [evaluate_condition, evalCondB, h1, ht]
      · obtain ⟨t, ht⟩ := hcmp (Or.inr (Or.inr (Or.inl h1)))
        simp [evaluate_condition, evalCondB, h1, ht]
      · obtain ⟨t, ht⟩ := hcmp (Or.inr (Or.inr (Or.inr h1)))
        simp [evaluate_condition, evalCondB, h1, ht]
      · simp [evaluate_condition, evalCondB, h1]
      · simp [evaluate_condition, evalCondB, h1]
      · simp [evaluate_condition, evalCondB, h1]

/-- Format spec of a `str.format` placeholder: `{x:.Nf}` (`fixed N`),
plain `{x}` (`general`), or `{x:d}` (`intFmt`, which raises `ValueError`
on a non-integer number, as Python does). -/
inductive FormatSpec where
  | fixed (prec : ℕ)
  | general
  | intFmt
deriving Repr, DecidableEq

/-- One chunk of a description template: literal text or a named
placeholder with a format spec. -/
inductive TItem where
  | lit (s : String)
  | ph (name : String) (spec : FormatSpec)
deriving Repr, DecidableEq

/-- A description template, i.e. a `str.format` string parsed into
chunks. -/
abbrev Template : Type := List TItem

/-- One zone definition dict: optional `priority` (default 999 at use
sites), optional `conditions` (default `[]`), optional `logic`
(default `"AND"`), optional `description_template`. -/
structure ZoneDef where
  priority : Option ℤ
  conditions : List Condition
  logic : Option String
  description_template : Option Template
deriving DecidableEq

/-- Property mapping of a transect feature: an association list from
attribute names to numeric-or-null values (property values are modelled as
numeric-or-null; string-valued attributes such as `site_id` fall outside
this value universe and read back as absent). -/
abbrev Props : Type := List (String × Option ℚ)

/-- Subscript access `d[k]` on a Python dict: `KeyError` when the key is absent. -/
def dictGet (props : Props) (key : String) : Except PyErr (Option ℚ) :=
  match props.lookup key with
  | some v => .ok v
  | none => .error (.keyError key)

/-- Total access `d.get(k)` on a Python dict holding numeric-or-null values: absent key
and null value both read as `None`. -/
def propGet (props : Props) (key : String) : Option ℚ :=
  (props.lookup key).join

/-- A transect feature: `properties` plus a `geometry` payload (opaque to
the zoning logic; only copied around). -/
structure Transect where
  properties : Props
  geometry : Option (String × List (ℚ × ℚ))
deriving DecidableEq

/-- The generator `all(evaluate_condition(props.get(cond['field']), cond) for cond in
conditions)`: short-circuiting conjunction inside `Except`. -/
def evalAllConditions (props : Props) : List Condition → Except PyErr Bool
  | [] => .ok true
  | c :: cs => do
      let b ← evaluate_condition (propGet props c.field) c
      if b then evalAllConditions props cs else pure false

/-- The generator `any(evaluate_condition(props.get(cond['field']), cond) for cond in
conditions)`: short-circuiting disjunction inside `Except`. -/
def evalAnyCondition (props : Props) : List Condition → Except PyErr Bool
  | [] => .ok false
  | c :: cs => do
      let b ← evaluate_condition (propGet props c.field) c
      if b then pure true else evalAnyCondition props cs

/-- Sort key of `classify_transect_zone_custom`:
`x[1].get('priority', 999)`. -/
def priorityKey (zd : String × ZoneDef) : ℤ :=
  zd.2.priority.getD 999

/-- Scan of the priority-sorted zone definitions inside
`classify_transect_zone_custom`: empty condition list is an immediate
catch-all; otherwise the `logic` mode (default `AND`) decides how the
conditions combine; a definition whose `logic` is neither `AND` nor `OR`
never matches (the Python loop simply falls through). -/
def classifyScan (props : Props) : List (String × ZoneDef) → Except PyErr String
  | [] => .ok "stable"
  | (zoneName, zoneDef) :: rest =>
      if zoneDef.conditions.isEmpty then .ok zoneName
      else
        let logic := zoneDef.logic.getD "AND"
        if logic = "AND" then do
          let b ← evalAllConditions props zoneDef.conditions
          if b then pure zoneName else classifyScan props rest
        else if logic = "OR" then do
          let b ← evalAnyCondition props zoneDef.conditions
          if b then pure zoneName else classifyScan props rest
        else classifyScan props rest

/-- Embeds `classify_transect_zone_custom` (narrative_zoning.py lines
205-240): stable-sort the definitions by priority ascending, return the
first match, falling back to `"stable"`. -/
def classify_transect_zone_custom (transect : Transect)
    (zone_definitions : List (String × ZoneDef)) : Except PyErr String :=
  let props := transect.properties
  let sorted_zones :=
    zone_definitions.insertionSort (fun a b => priorityKey a ≤ priorityKey b)
  classifyScan props sorted_zones

/-- The default zone definitions of `get_default_zone_definitions`
(narrative_zoning.py lines 91-162), with each `description_template`
format string carried in parsed-chunk form. -/
def get_default_zone_definitions : List (String × ZoneDef) :=
  [ ("no_data",
      { priority := some 1
        conditions := [⟨"trend", "is_null", none, false⟩]
        logic := none
        description_template := some
          [.lit "No data zone spanning ", .ph "length_km" (.fixed 1),
           .lit "km where insufficient observations prevent trend analysis."] }),
    ("rapid_erosion",
      { priority := some 2
        conditions := [⟨"trend", "<", some (-(4/5 : ℚ)), false⟩]
        logic := none
        description_template := some
          [.lit "Critical erosion hotspot spanning ", .ph "length_km" (.fixed 1),
           .lit "km with average retreat of ", .ph "avg_trend_abs" (.fixed 1),
           .lit "m/year. This area requires immediate attention and monitoring."] }),
    ("moderate_erosion",
      { priority := some 3
        conditions := [⟨"trend", "<", some (-(3/10 : ℚ)), false⟩]
        logic := none
        description_template := some
          [.lit "Erosion zone extending ", .ph "length_km" (.fixed 1),
           .lit "km showing consistent retreat averaging ", .ph "avg_trend_abs" (.fixed 1),
           .lit "m/year. Ongoing erosion processes are evident."] }),
    ("rapid_accretion",
      { priority := some 4
        conditions := [⟨"trend", ">", some (4/5 : ℚ), false⟩]
        logic := none
        description_template := some
          [.lit "Dynamic accretion zone over ", .ph "length_km" (.fixed 1),
           .lit "km with significant sand accumulation averaging ", .ph "avg_trend" (.fixed 1),
           .lit "m/year. This area shows strong sediment deposition."] }),
    ("moderate_accretion",
      { priority := some 5
        conditions := [⟨"trend", ">", some (3/10 : ℚ), false⟩]
        logic := none
        description_template := some
          [.lit "Stable accretion zone spanning ", .ph "length_km" (.fixed 1),
           .lit "km with gradual beach building averaging ", .ph "avg_trend" (.fixed 1),
           .lit "m/year. Positive sediment balance is maintained."] }),
    ("high_uncertainty",
      { priority := some 6
        conditions := [⟨"r2_score", "<", some (1/20 : ℚ), true⟩,
                       ⟨"rmse", ">", some 30, true⟩]
        logic := some "OR"
        description_template := some
          [.lit "Data-limited zone over ", .ph "length_km" (.fixed 1),
           .lit "km where shoreline trends are difficult to determine reliably. Additional monitoring may be needed."] }),
    ("steep_beach",
      { priority := some 7
        conditions := [⟨"beach_slope", ">", some (2/25 : ℚ), false⟩]
        logic := none
        description_template := some
          [.lit "High-energy beach zone over ", .ph "length_km" (.fixed 1),
           .lit "km characterized by steep beach profiles. This area may be vulnerable to storm impacts."] }),
    ("low_energy",
      { priority := some 8
        conditions := [⟨"beach_slope", "<", some (1/25 : ℚ), false⟩]
        logic := none
        description_template := some
          [.lit "Protected shoreline segment spanning ", .ph "length_km" (.fixed 1),
           .lit "km with gentle beach profiles indicating low wave energy conditions."] }),
    ("stable",
      { priority := some 9
        conditions := []
        logic := none
        description_template := some
          [.lit "Stable shoreline segment extending ", .ph "length_km" (.fixed 1),
           .lit "km showing minimal change over time. This area exhibits natural equilibrium."] }) ]

/-- Embeds `classify_transect_zone` (lines 326-340): `None` definitions
mean the defaults. -/
def classify_transect_zone (transect : Transect)
    (zone_definitions : Option (List (String × ZoneDef))) : Except PyErr String :=
  classify_transect_zone_custom transect
    (zone_definitions.getD get_default_zone_definitions)

/-- A rendered piece of a narrative description: literal text, or a number
formatted with a given spec. -/
inductive RToken where
  | lit (s : String)
  | num (spec : FormatSpec) (q : ℚ)
deriving Repr, DecidableEq

/-- Substitution `template.format(**vars)`: substitute each placeholder from the
variable mapping, left to right. An unknown placeholder raises `KeyError`;
a format spec that does not apply to the value (`:d` on a non-integer)
raises `ValueError` — the two exception kinds Python's `str.format` raises
here and exactly the two the caller catches. -/
def renderTemplate (vars : List (String × ℚ)) : Template → Except PyErr (List RToken)
  | [] => .ok []
  | .lit s :: rest => do
      let tail ← renderTemplate vars rest
      pure (.lit s :: tail)
  | .ph name spec :: rest =>
      match vars.lookup name with
      | none => .error (.keyError name)
      | some q =>
          match spec with
          | .intFmt =>
              if q.den = 1 then do
                let tail ← renderTemplate vars rest
                pure (.num .intFmt q :: tail)
              else .error (.valueError "Unknown format code for object of type float")
          | _ => do
              let tail ← renderTemplate vars rest
              pure (.num spec q :: tail)

/-- Summary dict of one narrative zone, as built by `create_zone_summary`.
`narrative_description` holds the rendered token list. -/
structure ZoneSummary where
  zone_type : String
  transect_count : ℕ
  start_index : ℕ
  end_index : ℕ
  start_distance : Option ℚ
  end_distance : Option ℚ
  length_meters : ℚ
  start_transect_id : Option ℚ
  end_transect_id : Option ℚ
  mean_trend : Option ℚ
  avg_beach_slope : Option ℚ
  avg_r2 : Option ℚ
  max_trend : Option ℚ
  min_trend : Option ℚ
  avg_rmse : Option ℚ
  avg_mae : Option ℚ
  avg_cil : Option ℚ
  avg_ciu : Option ℚ
  avg_orientation : Option ℚ
  transect_ids : List (Option ℚ)
  zone_name : String
  narrative_description : List RToken
deriving DecidableEq

/-- The default template of `get_zone_narrative_description_custom` for a
zone type missing from the definitions. -/
def unclassifiedTemplate : Template :=
  [.lit "Unclassified zone spanning ", .ph "length_km" (.fixed 1), .lit "km."]

/-- The template `get_zone_narrative_description_custom` picks for a zone:
the zone type's `description_template`, or the unclassified default. -/
def descriptionTemplateFor (zone : ZoneSummary)
    (zone_definitions : List (String × ZoneDef)) : Template :=
  ((zone_definitions.lookup zone.zone_type).bind (·.description_template)).getD
    unclassifiedTemplate

/-- The `template_vars` mapping built by
`get_zone_narrative_description_custom` (lines 462-479); `x or 0` turns a
null aggregate into 0. -/
def templateVarsFor (zone : ZoneSummary) : List (String × ℚ) :=
  let length_km := zone.length_meters / 1000
  let mean_trend := zone.mean_trend.getD 0
  [ ("length_km", length_km),
    ("mean_trend", mean_trend),
    ("avg_trend", mean_trend),
    ("avg_trend_abs", |mean_trend|),
    ("transect_count", (zone.transect_count : ℚ)),
    ("avg_beach_slope", zone.avg_beach_slope.getD 0),
    ("avg_slope", zone.avg_beach_slope.getD 0),
    ("avg_r2", zone.avg_r2.getD 0),
    ("max_trend", zone.max_trend.getD 0),
    ("min_trend", zone.min_trend.getD 0),
    ("avg_rmse", zone.avg_rmse.getD 0),
    ("avg_mae", zone.avg_mae.getD 0),
    ("avg_cil", zone.avg_cil.getD 0),
    ("avg_ciu", zone.avg_ciu.getD 0),
    ("avg_orientation", zone.avg_orientation.getD 0) ]

/-- The fallback description of the `except (KeyError, ValueError)` branch:
`f"Zone spanning {length_km:.1f}km with {...transect_count...} transects."` -/
def fallbackDescription (zone : ZoneSummary) : List RToken :=
  [ .lit "Zone spanning ",
    .num (.fixed 1) (zone.length_meters / 1000),
    .lit "km with ",
    .num .general (zone.transect_count : ℚ),
    .lit " transects." ]

/-- Embeds `get_zone_narrative_description_custom` (lines 448-485): render
the zone type's template over the template variables; on a substitution
failure (`KeyError` or `ValueError` — the only kinds `renderTemplate`
produces) fall back to a generic description. Total: never propagates an
error. -/
def get_zone_narrative_description_custom (zone : ZoneSummary)
    (zone_definitions : Option (List (String × ZoneDef))) : List RToken :=
  let defs := zone_definitions.getD get_default_zone_definitions
  let template := descriptionTemplateFor zone defs
  match renderTemplate (templateVarsFor zone) template with
  | .ok tokens => tokens
  | .error _ => fallbackDescription zone

/-- The list comprehension pattern used for `trend`, `beach_slope` and
`r2_score`: `[t['properties'][f] for t in ts if t['properties'][f] is not
None]` — the guard itself subscripts, so an absent key raises `KeyError`;
a null value is skipped. -/
def collectRequired (key : String) : List Transect → Except PyErr (List ℚ)
  | [] => .ok []
  | t :: ts => do
      let v ← dictGet t.properties key
      let rest ← collectRequired key ts
      match v with
      | some q => pure (q :: rest)
      | none => pure rest

/-- The list comprehension pattern used for `rmse`, `mae`, `cil`, `ciu`
and `orientation`: the guard uses `.get`, so an absent key is skipped just
like a null value and nothing can fail. -/
def collectOptional (key : String) : List Transect → List ℚ
  | [] => []
  | t :: ts =>
      match propGet t.properties key with
      | some q => q :: collectOptional key ts
      | none => collectOptional key ts

/-- The comprehension `[t['properties']['id'] for t in transects]`: subscript access, raises
on an absent `id` key, keeps null values. -/
def collectIds : List Transect → Except PyErr (List (Option ℚ))
  | [] => .ok []
  | t :: ts => do
      let v ← dictGet t.properties "id"
      let rest ← collectIds ts
      pure (v :: rest)

/-- The average `sum(xs) / len(xs) if xs else None`. -/
def meanOrNone (xs : List ℚ) : Option ℚ :=
  if xs.isEmpty then none else some (xs.sum / xs.length)

/-- The length `abs(end_dist - start_dist)` where the two distances may be null: a
null operand raises `TypeError`, as Python's `-` does on `NoneType`. -/
def lengthMeters (startDist endDist : Option ℚ) : Except PyErr ℚ :=
  match endDist, startDist with
  | some e, some s => .ok |e - s|
  | _, _ => .error (.typeError "unsupported operand type for -: NoneType")

/-- The name `f"{site_id}_{zone_type}_zone_{zone_index:02d}"` with
`site_id = transects[0]['properties'].get('site_id', 'unknown_site')`
(string-valued `site_id` is outside the numeric value universe of `Props`,
so it reads back as the default). -/
def zoneNameFor (first : Transect) (zoneType : String) (zoneIndex : ℕ) : String :=
  let siteId :=
    match first.properties.lookup "site_id" with
    | none => "unknown_site"
    | some none => "None"
    | some (some q) => toString q
  siteId ++ "_" ++ zoneType ++ "_zone_" ++
    (if zoneIndex < 10 then "0" else "") ++ toString zoneIndex

/-- Embeds `create_zone_summary` (narrative_zoning.py lines 388-445).
Returns `.ok none` for an empty member list (Python returns `{}`); on a
non-empty list gathers the per-field aggregates — required fields
(`trend`, `beach_slope`, `r2_score`) via subscripting comprehensions,
optional fields via `.get` comprehensions — reads `along_dist` of the
first and last member and `id` of every member by subscript, then builds
the summary and renders its narrative description. -/
def create_zone_summary (zone_type : String) (transects : List Transect)
    (start_index : ℕ) (zone_definitions : Option (List (String × ZoneDef)))
    (zone_index : ℕ) : Except PyErr (Option ZoneSummary) :=
  match transects with
  | [] => .ok none
  | first :: more => do
      let members := first :: more
      let trends ← collectRequired "trend" members
      let slopes ← collectRequired "beach_slope" members
      let r2s ← collectRequired "r2_score" members
      let rmses := collectOptional "rmse" members
      let maes := collectOptional "mae" members
      let cils := collectOptional "cil" members
      let cius := collectOptional "ciu" members
      let orientations := collectOptional "orientation" members
      let last := members.getLast (by simp [members])
      let start_dist ← dictGet first.properties "along_dist"
      let end_dist ← dictGet last.properties "along_dist"
      let length_m ← lengthMeters start_dist end_dist
      let start_id ← dictGet first.properties "id"
      let end_id ← dictGet last.properties "id"
      let ids ← collectIds members
      let base : ZoneSummary :=
        { zone_type := zone_type
          transect_count := members.length
          start_index := start_index
          end_index := start_index + members.length - 1
          start_distance := start_dist
          end_distance := end_dist
          length_meters := length_m
          start_transect_id := start_id
          end_transect_id := end_id
          mean_trend := meanOrNone trends
          avg_beach_slope := meanOrNone slopes
          avg_r2 := meanOrNone r2s
          max_trend := trends.max?
          min_trend := trends.min?
          avg_rmse := meanOrNone rmses
          avg_mae := meanOrNone maes
          avg_cil := meanOrNone cils
          avg_ciu := meanOrNone cius
          avg_orientation := meanOrNone orientations
          transect_ids := ids
          zone_name := zoneNameFor first zone_type zone_index
          narrative_description := [] }
      pure (some { base with
        narrative_description :=
          get_zone_narrative_description_custom base zone_definitions })

/-- Loop state step of `identify_narrative_zones` (lines 364-379), taken
over the remaining transects. State: position `i` of the next transect,
current run type (`none` before the first transect), run start index, run
members, 1-based zone counter, and the accumulated zones. Closing a run
emits its summary only when the run length reaches `min_zone_length`. -/
def zoneLoop (min_zone_length : ℕ)
    (zone_definitions : Option (List (String × ZoneDef))) :
    List Transect → ℕ → Option String → ℕ → List Transect → ℕ →
    List (Option ZoneSummary) → Except PyErr (List (Option ZoneSummary))
  | [], _, currentType, currentStart, currentTransects, zoneCounter, zones =>
      match currentType with
      | some ct =>
          if min_zone_length ≤ currentTransects.length then do
            let z ← create_zone_summary ct currentTransects currentStart
              zone_definitions zoneCounter
            pure (zones ++ [z])
          else pure zones
      | none => pure zones
  | transect :: rest, i, currentType, currentStart, currentTransects,
      zoneCounter, zones => do
      let zoneType ← classify_transect_zone transect zone_definitions
      if some zoneType = currentType then
        zoneLoop min_zone_length zone_definitions rest (i + 1) currentType
          currentStart (currentTransects ++ [transect]) zoneCounter zones
      else
        match currentType with
        | some ct =>
            if min_zone_length ≤ currentTransects.length then do
              let z ← create_zone_summary ct currentTransects currentStart
                zone_definitions zoneCounter
              zoneLoop min_zone_length zone_definitions rest (i + 1)
                (some zoneType) i [transect] (zoneCounter + 1) (zones ++ [z])
            else
              zoneLoop min_zone_length zone_definitions rest (i + 1)
                (some zoneType) i [transect] zoneCounter zones
        | none =>
            zoneLoop min_zone_length zone_definitions rest (i + 1)
              (some zoneType) i [transect] zoneCounter zones

/-- Embeds `identify_narrative_zones` (narrative_zoning.py lines 343-385):
classify each transect in order, close a run whenever the classification
changes, emit runs of at least `min_zone_length` transects, and do not
forget the final run. -/
def identify_narrative_zones (transects : List Transect)
    (min_zone_length : ℕ)
    (zone_definitions : Option (List (String × ZoneDef))) :
    Except PyErr (List (Option ZoneSummary)) :=
  if transects.isEmpty then .ok []
  else zoneLoop min_zone_length zone_definitions transects 0 none 0 [] 1 []

/-- One value of the transect-classification map: the transect's
properties and geometry plus its individual zone classification. -/
structure TransectEntry where
  properties : Props
  geometry : Option (String × List (ℚ × ℚ))
  zone_classification : String
deriving DecidableEq

/-- The transect-classification map, keyed by the (possibly null) `id`
property. -/
abbrev TransectDict : Type := List (Option ℚ × TransectEntry)

/-- Python dict assignment `d[k] = v`: replace the value of an existing
key, otherwise append the new key at the end. -/
def dictSet (d : TransectDict) (key : Option ℚ) (v : TransectEntry) :
    TransectDict :=
  match d with
  | [] => [(key, v)]
  | (k, w) :: rest =>
      if k = key then (k, v) :: rest else (k, w) :: dictSet rest key v

/-- Loop of `create_transect_dict` over the remaining transects, carrying
the dict built so far. -/
def transectDictLoop (zone_definitions : Option (List (String × ZoneDef))) :
    List Transect → TransectDict → Except PyErr TransectDict
  | [], d => .ok d
  | t :: ts, d => do
      let transectId ← dictGet t.properties "id"
      let zoneType ← classify_transect_zone t zone_definitions
      transectDictLoop zone_definitions ts
        (dictSet d transectId ⟨t.properties, t.geometry, zoneType⟩)

/-- Embeds `create_transect_dict` (narrative_zoning.py lines 493-516):
map each transect's `id` to its properties, geometry and individual zone
classification. -/
def create_transect_dict (transects : List Transect)
    (zone_definitions : Option (List (String × ZoneDef))) :
    Except PyErr TransectDict :=
  transectDictLoop zone_definitions transects []

/-- The `id` value of a transect as `create_transect_dict` keys it: the
value of the `id` property, null when absent (the subscript would raise
first in that case, so the conflation is harmless under a successful
run). -/
def transectKey (t : Transect) : Option ℚ :=
  propGet t.properties "id"

/-- A fully populated example transect: id `i`, the given `trend`, benign
slope/fit/error values, `along_dist` `d`. -/
def mkExTransect (i trend d : ℚ) : Transect :=
  { properties :=
      [ ("id", some i), ("site_id", none), ("trend", some trend),
        ("beach_slope", some (1/20)), ("r2_score", some (1/2)),
        ("rmse", some 10), ("along_dist", some d) ]
    geometry := none }

/-- Seven ordered transects whose default classifications run
`rapid_erosion ×3, rapid_accretion ×1, rapid_erosion ×3`. -/
def exSevenTransects : List Transect :=
  [ mkExTransect 1 (-1) 0, mkExTransect 2 (-1) 100, mkExTransect 3 (-1) 200,
    mkExTransect 4 1 300,
    mkExTransect 5 (-1) 400, mkExTransect 6 (-1) 500, mkExTransect 7 (-1) 600 ]

/-- C1 counterexample: with an absent value, `evaluate_condition` returns
the `allow_null` default `false` even for the malformed operator `"@!"` —
the unknown operator is silently swallowed into a boolean, because the
null-handling early return precedes the operator dispatch. -/
theorem unknown_op_swallowed_when_value_absent :
    evaluate_condition none ⟨"trend", "@!", some 1, false⟩ = .ok false := rfl

/-- C1 (amended): for every **present** value, a condition whose operator
is not one of the seven known ones makes `evaluate_condition` fail with
the `InvalidRule` error (`ValueError: Unknown operator`), never a
boolean. -/
theorem unknown_op_raises_when_value_present (c : Condition) (v : ℚ)
    (h : c.op ∉ knownOperators) :
    evaluate_condition (some v) c =
      .error (.valueError ("Unknown operator: " ++ c.op)) := by
  simp only [knownOperators, List.mem_cons, List.not_mem_nil, or_false] at h
  push_neg at h
  obtain ⟨h1, h2, h3, h4, h5, h6, h7⟩ := h
  simp [evaluate_condition, h1, h2, h3, h4, h5, h6, h7]

/-- Witness for the amended C1 at the concrete operator `"@!"`. -/
theorem unknown_op_raises_when_value_present_witness :
    ("@!" : String) ∉ knownOperators ∧
      evaluate_condition (some 1) ⟨"trend", "@!", some 0, false⟩ =
        .error (.valueError ("Unknown operator: " ++ "@!")) :=
  ⟨by decide, unknown_op_raises_when_value_present ⟨"trend", "@!", some 0, false⟩ 1 (by decide)⟩

/-- C5: null/operator semantics of `evaluate_condition`. With an absent
value the result is `true` exactly for `is_null` and the `allow_null` flag
otherwise; with a present value `is_null` is `false` and each named
comparison operator compares the value against the threshold. -/
theorem evaluate_condition_semantics (c : Condition) (v t : ℚ) (f : String)
    (th : Option ℚ) (a : Bool) :
    (evaluate_condition none c =
        .ok (if c.op = "is_null" then true else c.allow_null)) ∧
    evaluate_condition (some v) ⟨f, "is_null", th, a⟩ = .ok false ∧
    evaluate_condition (some v) ⟨f, "<", some t, a⟩ = .ok (decide (v < t)) ∧
    evaluate_condition (some v) ⟨f, "<=", some t, a⟩ = .ok (decide (v ≤ t)) ∧
    evaluate_condition (some v) ⟨f, ">", some t, a⟩ = .ok (decide (v > t)) ∧
    evaluate_condition (some v) ⟨f, ">=", some t, a⟩ = .ok (decide (v ≥ t)) ∧
    evaluate_condition (some v) ⟨f, "==", some t, a⟩ = .ok (decide (v = t)) ∧
    evaluate_condition (some v) ⟨f, "!=", some t, a⟩ = .ok (decide (v ≠ t)) := by
  refine ⟨?_, ?_, ?_, ?_, ?_, ?_, ?_, ?_⟩
  · by_cases hn : c.op = "is_null" <;> simp [evaluate_condition, hn]
  · simp [evaluate_condition]
  · simp [evaluate_condition]
  · simp [evaluate_condition]
  · simp [evaluate_condition]
  · simp [evaluate_condition]
  · simp [evaluate_condition]
  · simp [evaluate_condition]

/-- Pure matching of one zone definition against transect properties,
mirroring the source's per-definition logic: an empty condition list
always matches; `AND` requires all conditions, `OR` any; a definition with
an unrecognized `logic` mode never matches (the Python loop just falls
through it). -/
def zoneDefMatches (props : Props) (zd : ZoneDef) : Bool :=
  if zd.conditions.isEmpty then true
  else
    let logic := zd.logic.getD "AND"
    if logic = "AND" then
      zd.conditions.all (fun c => evalCondB (propGet props c.field) c)
    else if logic = "OR" then
      zd.conditions.any (fun c => evalCondB (propGet props c.field) c)
    else false

/-- Every condition of every definition in the rule set is well formed. -/
def defsOk (defs : List (String × ZoneDef)) : Bool :=
  defs.all (fun d => d.2.conditions.all condOk)

theorem evalAllConditions_ok (props : Props) :
    ∀ cs : List Condition, cs.all condOk = true →
      evalAllConditions props cs =
        .ok (cs.all (fun c => evalCondB (propGet props c.field) c))
  | [], _ => rfl
  | c :: cs, h => by
      rw [List.all_cons, Bool.and_eq_true] at h
      rw [evalAllConditions, evaluate_condition_ok_of_condOk c h.1]
      cases hc : evalCondB (propGet props c.field) c
      · simp only [List.all_cons, hc, Bool.false_and]
        rfl
      · simp only [List.all_cons, hc, Bool.true_and]
        exact evalAllConditions_ok props cs h.2

theorem evalAnyCondition_ok (props : Props) :
    ∀ cs : List Condition, cs.all condOk = true →
      evalAnyCondition props cs =
        .ok (cs.any (fun c => evalCondB (propGet props c.field) c))
  | [], _ => rfl
  | c :: cs, h => by
      rw [List.all_cons, Bool.and_eq_true] at h
      rw [evalAnyCondition, evaluate_condition_ok_of_condOk c h.1]
      cases hc : evalCondB (propGet props c.field) c
      · simp only [List.any_cons, hc, Bool.false_or]
        exact evalAnyCondition_ok props cs h.2
      · simp only [List.any_cons, hc, Bool.true_or]
        rfl

/-- On a well-formed rule list the scan never errors and returns the first
match in list order, defaulting to `"stable"`. -/
theorem classifyScan_ok (props : Props) :
    ∀ l : List (String × ZoneDef),
      l.all (fun d => d.2.conditions.all condOk) = true →
      classifyScan props l =
        .ok (((l.find? (fun d => zoneDefMatches props d.2)).map Prod.fst).getD
          "stable")
  | [], _ => rfl
  | (zoneName, zoneDef) :: rest, h => by
      rw [List.all_cons, Bool.and_eq_true] at h
      rw [classifyScan]
      by_cases hempty : zoneDef.conditions.isEmpty
      · rw [if_pos hempty]
        rw [List.find?_cons_of_pos _ (by simp [zoneDefMatches, hempty])]
        rfl
      · rw [if_neg hempty]
        by_cases hand : zoneDef.logic.getD "AND" = "AND"
        · rw [if_pos hand, evalAllConditions_ok props _ h.1]
          cases hc : zoneDef.conditions.all
              (fun c => evalCondB (propGet props c.field) c)
          · rw [List.find?_cons_of_neg _
              (by simp [zoneDefMatches, hempty, hand, hc])]
            exact classifyScan_ok props rest h.2
          · rw [List.find?_cons_of_pos _
              (by simp [zoneDefMatches, hempty, hand, hc])]
            rfl
        · by_cases hor : zoneDef.logic.getD "AND" = "OR"
          · rw [if_neg hand, if_pos hor, evalAnyCondition_ok props _ h.1]
            cases hc : zoneDef.conditions.any
                (fun c => evalCondB (propGet props c.field) c)
            · rw [List.find?_cons_of_neg _
                (by simp [zoneDefMatches, hempty, hand, hor, hc])]
              exact classifyScan_ok props rest h.2
            · rw [List.find?_cons_of_pos _
                (by simp [zoneDefMatches, hempty, hand, hor, hc])]
              rfl
          · rw [if_neg hand, if_neg hor]
            rw [List.find?_cons_of_neg _
              (by simp [zoneDefMatches, hempty, hand, hor])]
            exact classifyScan_ok props rest h.2

/-- Among the elements of `l` satisfying `p`, the one with the least
`key`, the earliest winning ties — i.e. the element that a stable sort by
`key` brings in front of every other satisfier. -/
def selectFirstMin {α : Type} (p : α → Bool) (key : α → ℤ) : List α → Option α
  | [] => none
  | d :: l =>
      match selectFirstMin p key l with
      | none => if p d then some d else none
      | some m =>
          if p d then (if key d ≤ key m then some d else some m) else some m

theorem find?_orderedInsert {α : Type} (p : α → Bool) (key : α → ℤ) (d : α) :
    ∀ S : List α, S.Sorted (fun a b => key a ≤ key b) →
      (S.orderedInsert (fun a b => key a ≤ key b) d).find? p =
        (match S.find? p with
         | none => if p d then some d else none
         | some m =>
             if p d then (if key d ≤ key m then some d else some m) else some m)
  | [], _ => by
      cases hpd : p d <;> simp [List.orderedInsert, hpd]
  | b :: t, hs => by
      obtain ⟨hb, ht⟩ := List.sorted_cons.mp hs
      by_cases hle : key d ≤ key b
      · rw [List.orderedInsert, if_pos hle]
        cases hm : (b :: t).find? p with
        | none =>
            cases hpd : p d <;> simp [hpd, hm]
        | some m =>
            have hdm : key d ≤ key m := by
              have hmem := List.mem_of_find?_eq_some hm
              rcases List.mem_cons.mp hmem with h1 | h1
              · exact h1 ▸ hle
              · exact le_trans hle (hb m h1)
            cases hpd : p d <;> simp [hpd, hm, hdm]
      · rw [List.orderedInsert, if_neg hle]
        cases hpb : p b
        · rw [List.find?_cons_of_neg _ (by simp [hpb]),
            List.find?_cons_of_neg _ (by simp [hpb])]
          exact find?_orderedInsert p key d t ht
        · rw [List.find?_cons_of_pos _ hpb, List.find?_cons_of_pos _ hpb]
          cases hpd : p d <;> simp [hpd, hle]

theorem find?_insertionSort_eq_selectFirstMin {α : Type} (p : α → Bool)
    (key : α → ℤ) :
    ∀ l : List α,
      (l.insertionSort (fun a b => key a ≤ key b)).find? p =
        selectFirstMin p key l
  | [] => rfl
  | d :: l => by
      haveI : IsTotal α (fun a b => key a ≤ key b) := ⟨fun a b => le_total _ _⟩
      haveI : IsTrans α (fun a b => key a ≤ key b) :=
        ⟨fun a b c hab hbc => le_trans hab hbc⟩
      rw [List.insertionSort,
        find?_orderedInsert p key d _ (List.sorted_insertionSort _ _),
        find?_insertionSort_eq_selectFirstMin p key l]
      rfl

theorem selectFirstMin_mem {α : Type} (p : α → Bool) (key : α → ℤ) :
    ∀ (l : List α) (m : α), selectFirstMin p key l = some m →
      p m = true ∧ m ∈ l
  | [], m, h => by cases h
  | d :: l, m, h => by
      rw [selectFirstMin] at h
      cases h0 : selectFirstMin p key l with
      | none =>
          rw [h0] at h
          cases hpd : p d
          · simp [hpd] at h
          · simp only [hpd, if_true] at h
            cases h
            exact ⟨hpd, List.mem_cons_self d l⟩
      | some m' =>
          rw [h0] at h
          obtain ⟨hpm', hmem'⟩ := selectFirstMin_mem p key l m' h0
          cases hpd : p d
          · simp only [hpd] at h
            cases h
            exact ⟨hpm', List.mem_cons_of_mem d hmem'⟩
          · by_cases hk : key d ≤ key m'
            · simp only [hpd, hk, if_true] at h
              cases h
              exact ⟨hpd, List.mem_cons_self d l⟩
            · simp only [hpd, hk, if_true, if_false] at h
              cases h
              exact ⟨hpm', List.mem_cons_of_mem d hmem'⟩

theorem selectFirstMin_eq_none_iff {α : Type} (p : α → Bool) (key : α → ℤ) :
    ∀ l : List α, selectFirstMin p key l = none ↔ ∀ x ∈ l, p x = false
  | [] => by simp [selectFirstMin]
  | d :: l => by
      rw [selectFirstMin]
      cases h0 : selectFirstMin p key l with
      | none =>
          have hl := (selectFirstMin_eq_none_iff p key l).mp h0
          cases hpd : p d
          · simp only [hpd, Bool.false_eq_true, if_false]
            constructor
            · intro _ x hx
              rcases List.mem_cons.mp hx with h1 | h1
              · exact h1 ▸ hpd
              · exact hl x h1
            · intro _
              trivial
          · simp only [hpd, if_true]
            constructor
            · intro h
              cases h
            · intro hall
              have := hall d (List.mem_cons_self d l)
              rw [hpd] at this
              cases this
      | some m' =>
          obtain ⟨hpm', hmem'⟩ := selectFirstMin_mem p key l m' h0
          constructor
          · intro h
            cases hpd : p d <;> rw [hpd] at h <;> simp at h
            by_cases hk : key d ≤ key m' <;> simp [hk] at h
          · intro hall
            have := hall m' (List.mem_cons_of_mem d hmem')
            rw [hpm'] at this
            cases this

/-- The element `selectFirstMin` picks satisfies `p`, and splits the list
so that every earlier satisfier has a strictly larger key and every later
satisfier a larger-or-equal key — it is the lexicographic minimum of
`(key, position)` among the satisfiers. -/
theorem selectFirstMin_spec {α : Type} (p : α → Bool) (key : α → ℤ) :
    ∀ (l : List α) (m : α), selectFirstMin p key l = some m →
      p m = true ∧ ∃ pre post, l = pre ++ m :: post ∧
        (∀ x ∈ pre, p x = true → key m < key x) ∧
        (∀ x ∈ post, p x = true → key m ≤ key x)
  | [], m, h => by cases h
  | d :: l, m, h => by
      rw [selectFirstMin] at h
      cases h0 : selectFirstMin p key l with
      | none =>
          rw [h0] at h
          have hnol := (selectFirstMin_eq_none_iff p key l).mp h0
          cases hpd : p d
          · simp [hpd] at h
          · simp only [hpd, if_true] at h
            cases h
            refine ⟨hpd, [], l, by simp, by simp, ?_⟩
            intro x hx hpx
            rw [hnol x hx] at hpx
            cases hpx
      | some m' =>
          rw [h0] at h
          obtain ⟨hpm', pre', post', hsplit, hpre', hpost'⟩ :=
            selectFirstMin_spec p key l m' h0
          cases hpd : p d
          · simp only [hpd] at h
            cases h
            refine ⟨hpm', d :: pre', post', by simp [hsplit], ?_, hpost'⟩
            intro x hx hpx
            rcases List.mem_cons.mp hx with h1 | h1
            · subst h1
              rw [hpx] at hpd
              cases hpd
            · exact hpre' x h1 hpx
          · by_cases hk : key d ≤ key m'
            · simp only [hpd, hk, if_true] at h
              cases h
              refine ⟨hpd, [], l, by simp, by simp, ?_⟩
              intro x hx hpx
              rw [hsplit] at hx
              rcases List.mem_append.mp hx with h1 | h1
              · exact le_trans hk (le_of_lt (hpre' x h1 hpx))
              · rcases List.mem_cons.mp h1 with h2 | h2
                · exact h2 ▸ hk
                · exact le_trans hk (hpost' x h2 hpx)
            · simp only [hpd, hk, if_true, if_false] at h
              cases h
              refine ⟨hpm', d :: pre', post', by simp [hsplit], ?_, hpost'⟩
              intro x hx hpx
              rcases List.mem_cons.mp hx with h1 | h1
              · subst h1
                exact lt_of_not_le hk
              · exact hpre' x h1 hpx

/-- Modelled on the spec's phrasing: the matching definition with the
lowest `priority`, ties broken by enumeration order. -/
def lowestPriorityMatch (props : Props) (defs : List (String × ZoneDef)) :
    Option (String × ZoneDef) :=
  selectFirstMin (fun d => zoneDefMatches props d.2) priorityKey defs

theorem classify_eq_scan_sorted (transect : Transect)
    (defs : List (String × ZoneDef)) (h : defsOk defs = true) :
    classify_transect_zone_custom transect defs =
      .ok (((lowestPriorityMatch transect.properties defs).map Prod.fst).getD
        "stable") := by
  unfold classify_transect_zone_custom
  rw [classifyScan_ok]
  · rw [find?_insertionSort_eq_selectFirstMin
      (fun d => zoneDefMatches transect.properties d.2) priorityKey defs]
    rfl
  · refine List.all_eq_true.mpr (fun d hd => ?_)
    exact List.all_eq_true.mp h d ((List.mem_insertionSort _).mp hd)

/-- C3: with a well-formed rule set, classification follows the priority
law. A definition with an empty condition list matches unconditionally;
when nothing matches the result is the reserved `"stable"`; and whenever a
lowest-priority match exists it is returned, it matches, every other
matching definition either has a strictly larger priority (if enumerated
earlier) or a larger-or-equal one (if enumerated later) — i.e. the winner
is independent of enumeration order, with ties broken by enumeration
order; finally, a lowest-priority match exists as soon as any definition
matches. -/
theorem classify_transect_zone_custom_priority_law (transect : Transect)
    (defs : List (String × ZoneDef)) (h : defsOk defs = true) :
    (∀ zd : ZoneDef, zd.conditions = [] →
        zoneDefMatches transect.properties zd = true) ∧
    ((∀ d ∈ defs, zoneDefMatches transect.properties d.2 = false) →
        classify_transect_zone_custom transect defs = .ok "stable") ∧
    (∀ m, lowestPriorityMatch transect.properties defs = some m →
        classify_transect_zone_custom transect defs = .ok m.1 ∧
        zoneDefMatches transect.properties m.2 = true ∧
        ∃ pre post, defs = pre ++ m :: post ∧
          (∀ x ∈ pre, zoneDefMatches transect.properties x.2 = true →
              priorityKey m < priorityKey x) ∧
          (∀ x ∈ post, zoneDefMatches transect.properties x.2 = true →
              priorityKey m ≤ priorityKey x)) ∧
    ((∃ d ∈ defs, zoneDefMatches transect.properties d.2 = true) →
        ∃ m, lowestPriorityMatch transect.properties defs = some m) := by
  refine ⟨?_, ?_, ?_, ?_⟩
  · intro zd hc
    simp [zoneDefMatches, hc]
  · intro hnone
    have h0 : lowestPriorityMatch transect.properties defs = none :=
      (selectFirstMin_eq_none_iff _ _ _).mpr hnone
    rw [classify_eq_scan_sorted transect defs h, h0]
    rfl
  · intro m hm
    obtain ⟨hpm, pre, post, hsplit, hpre, hpost⟩ :=
      selectFirstMin_spec
        (fun d : String × ZoneDef => zoneDefMatches transect.properties d.2)
        priorityKey defs m hm
    refine ⟨?_, hpm, pre, post, hsplit, hpre, hpost⟩
    rw [classify_eq_scan_sorted transect defs h, hm]
    rfl
  · intro ⟨d, hd, hmatch⟩
    cases h0 : lowestPriorityMatch transect.properties defs with
    | none =>
        have := (selectFirstMin_eq_none_iff _ _ _).mp h0 d hd
        rw [hmatch] at this
        cases this
    | some m => exact ⟨m, rfl⟩

/-- Witness for C3 at a concrete transect and the default rule set. -/
theorem classify_priority_law_witness :
    defsOk get_default_zone_definitions = true ∧
    ((∀ zd : ZoneDef, zd.conditions = [] →
        zoneDefMatches (mkExTransect 1 (-1) 0).properties zd = true) ∧
    ((∀ d ∈ get_default_zone_definitions,
        zoneDefMatches (mkExTransect 1 (-1) 0).properties d.2 = false) →
        classify_transect_zone_custom (mkExTransect 1 (-1) 0)
          get_default_zone_definitions = .ok "stable") ∧
    (∀ m, lowestPriorityMatch (mkExTransect 1 (-1) 0).properties
          get_default_zone_definitions = some m →
        classify_transect_zone_custom (mkExTransect 1 (-1) 0)
          get_default_zone_definitions = .ok m.1 ∧
        zoneDefMatches (mkExTransect 1 (-1) 0).properties m.2 = true ∧
        ∃ pre post, get_default_zone_definitions = pre ++ m :: post ∧
          (∀ x ∈ pre,
              zoneDefMatches (mkExTransect 1 (-1) 0).properties x.2 = true →
              priorityKey m < priorityKey x) ∧
          (∀ x ∈ post,
              zoneDefMatches (mkExTransect 1 (-1) 0).properties x.2 = true →
              priorityKey m ≤ priorityKey x)) ∧
    ((∃ d ∈ get_default_zone_definitions,
        zoneDefMatches (mkExTransect 1 (-1) 0).properties d.2 = true) →
        ∃ m, lowestPriorityMatch (mkExTransect 1 (-1) 0).properties
          get_default_zone_definitions = some m)) :=
  ⟨by decide,
    classify_transect_zone_custom_priority_law (mkExTransect 1 (-1) 0)
      get_default_zone_definitions (by decide)⟩

theorem ok_bind {ε α β : Type} (a : α) (f : α → Except ε β) :
    (Except.ok a >>= f) = f a := rfl

theorem error_bind {ε α β : Type} (e : ε) (f : α → Except ε β) :
    ((Except.error e : Except ε α) >>= f) = .error e := rfl

theorem except_bind_ok {ε α β : Type} {a : Except ε α} {f : α → Except ε β}
    {b : β} (h : (a >>= f) = .ok b) : ∃ v, a = .ok v ∧ f v = .ok b := by
  cases a with
  | ok v => exact ⟨v, rfl, h⟩
  | error e =>
      rw [error_bind] at h
      cases h

/-- The per-field list of present values among the member transects. -/
def presentVals (key : String) (ts : List Transect) : List ℚ :=
  ts.filterMap (fun t => propGet t.properties key)

theorem collectRequired_ok_val (key : String) :
    ∀ (ts : List Transect) (vs : List ℚ),
      collectRequired key ts = .ok vs → vs = presentVals key ts
  | [], vs, h => by
      cases h
      rfl
  | t :: ts, vs, h => by
      rw [collectRequired] at h
      obtain ⟨v, hv, h⟩ := except_bind_ok h
      obtain ⟨rest, hrest, h⟩ := except_bind_ok h
      have hr := collectRequired_ok_val key ts rest hrest
      have hpg : propGet t.properties key = v := by
        rw [dictGet] at hv
        cases hl : t.properties.lookup key with
        | none => rw [hl] at hv; cases hv
        | some w =>
            rw [hl] at hv
            cases hv
            simp [propGet, hl]
      cases v with
      | none =>
          cases h
          simp only [presentVals, List.filterMap_cons, hpg]
          exact hr
      | some q =>
          cases h
          simp only [presentVals, List.filterMap_cons, hpg]
          exact congrArg (List.cons q) hr

theorem collectOptional_eq_presentVals (key : String) :
    ∀ ts : List Transect, collectOptional key ts = presentVals key ts
  | [] => rfl
  | t :: ts => by
      rw [collectOptional]
      cases hp : propGet t.properties key with
      | none =>
          simp only [presentVals, List.filterMap_cons, hp]
          exact collectOptional_eq_presentVals key ts
      | some q =>
          simp only [presentVals, List.filterMap_cons, hp]
          exact congrArg (List.cons q) (collectOptional_eq_presentVals key ts)

theorem collectIds_ok_val :
    ∀ (ts : List Transect) (ids : List (Option ℚ)),
      collectIds ts = .ok ids → ids = ts.map transectKey
  | [], ids, h => by
      cases h
      rfl
  | t :: ts, ids, h => by
      rw [collectIds] at h
      obtain ⟨v, hv, h⟩ := except_bind_ok h
      obtain ⟨rest, hrest, h⟩ := except_bind_ok h
      cases h
      have hr := collectIds_ok_val ts rest hrest
      have hpg : transectKey t = v := by
        rw [dictGet] at hv
        cases hl : t.properties.lookup "id" with
        | none => rw [hl] at hv; cases hv
        | some w =>
            rw [hl] at hv
            cases hv
            simp [transectKey, propGet, hl]
      simp [hpg, hr]

/-- Success characterization of `create_zone_summary` on a non-empty member
list: the summary carries the zone type, the member count, each aggregate
over the independently filtered present values of its own field (absent
when no value is present), and the members' id values in order. -/
theorem create_zone_summary_ok_spec (zt : String) (ts : List Transect)
    (si : ℕ) (zds : Option (List (String × ZoneDef))) (zi : ℕ)
    (z? : Option ZoneSummary) (hne : ts ≠ [])
    (h : create_zone_summary zt ts si zds zi = .ok z?) :
    ∃ z, z? = some z ∧
      z.zone_type = zt ∧
      z.transect_count = ts.length ∧
      z.mean_trend = meanOrNone (presentVals "trend" ts) ∧
      z.avg_beach_slope = meanOrNone (presentVals "beach_slope" ts) ∧
      z.avg_r2 = meanOrNone (presentVals "r2_score" ts) ∧
      z.avg_rmse = meanOrNone (presentVals "rmse" ts) ∧
      z.avg_mae = meanOrNone (presentVals "mae" ts) ∧
      z.avg_cil = meanOrNone (presentVals "cil" ts) ∧
      z.avg_ciu = meanOrNone (presentVals "ciu" ts) ∧
      z.avg_orientation = meanOrNone (presentVals "orientation" ts) ∧
      z.max_trend = (presentVals "trend" ts).max? ∧
      z.min_trend = (presentVals "trend" ts).min? ∧
      z.transect_ids = ts.map transectKey := by
  cases ts with
  | nil => exact absurd rfl hne
  | cons first more =>
      rw [create_zone_summary] at h
      obtain ⟨trends, htr, h⟩ := except_bind_ok h
      obtain ⟨slopes, hsl, h⟩ := except_bind_ok h
      obtain ⟨r2s, hr2, h⟩ := except_bind_ok h
      obtain ⟨start_dist, hsd, h⟩ := except_bind_ok h
      obtain ⟨end_dist, hed, h⟩ := except_bind_ok h
      obtain ⟨length_m, hlm, h⟩ := except_bind_ok h
      obtain ⟨start_id, hsi, h⟩ := except_bind_ok h
      obtain ⟨end_id, hei, h⟩ := except_bind_ok h
      obtain ⟨ids, hids, h⟩ := except_bind_ok h
      have hz : z? = some _ := (Except.ok.inj h).symm
      refine ⟨_, hz, rfl, rfl, ?_, ?_, ?_, ?_, ?_, ?_, ?_, ?_, ?_, ?_, ?_⟩
      · exact congrArg meanOrNone (collectRequired_ok_val _ _ _ htr)
      · exact congrArg meanOrNone (collectRequired_ok_val _ _ _ hsl)
      · exact congrArg meanOrNone (collectRequired_ok_val _ _ _ hr2)
      · exact congrArg meanOrNone (collectOptional_eq_presentVals _ _)
      · exact congrArg meanOrNone (collectOptional_eq_presentVals _ _)
      · exact congrArg meanOrNone (collectOptional_eq_presentVals _ _)
      · exact congrArg meanOrNone (collectOptional_eq_presentVals _ _)
      · exact congrArg meanOrNone (collectOptional_eq_presentVals _ _)
      · exact congrArg List.max? (collectRequired_ok_val _ _ _ htr)
      · exact congrArg List.min? (collectRequired_ok_val _ _ _ htr)
      · exact collectIds_ok_val _ _ hids

/-- Extract the summary from a successful non-empty run (used to name the
concretely computed summary in witnesses). -/
def okSummary (r : Except PyErr (Option ZoneSummary)) : ZoneSummary :=
  match r with
  | .ok (some z) => z
  | _ =>
      { zone_type := "", transect_count := 0, start_index := 0, end_index := 0,
        start_distance := none, end_distance := none, length_meters := 0,
        start_transect_id := none, end_transect_id := none, mean_trend := none,
        avg_beach_slope := none, avg_r2 := none, max_trend := none,
        min_trend := none, avg_rmse := none, avg_mae := none, avg_cil := none,
        avg_ciu := none, avg_orientation := none, transect_ids := [],
        zone_name := "", narrative_description := [] }

/-- C8: every aggregate of a successfully built zone summary is computed
over the present values of its own field, independently per field
(`presentVals` filters each field on its own); a field with no present
values yields an absent aggregate (`meanOrNone [] = none`), never zero;
and a field with present values yields their arithmetic mean. -/
theorem create_zone_summary_field_aggregates (zt : String)
    (ts : List Transect) (si : ℕ)
    (zds : Option (List (String × ZoneDef))) (zi : ℕ) (z : ZoneSummary)
    (h : create_zone_summary zt ts si zds zi = .ok (some z)) :
    (z.mean_trend = meanOrNone (presentVals "trend" ts) ∧
     z.avg_beach_slope = meanOrNone (presentVals "beach_slope" ts) ∧
     z.avg_r2 = meanOrNone (presentVals "r2_score" ts) ∧
     z.avg_rmse = meanOrNone (presentVals "rmse" ts) ∧
     z.avg_mae = meanOrNone (presentVals "mae" ts) ∧
     z.avg_cil = meanOrNone (presentVals "cil" ts) ∧
     z.avg_ciu = meanOrNone (presentVals "ciu" ts) ∧
     z.avg_orientation = meanOrNone (presentVals "orientation" ts) ∧
     z.max_trend = (presentVals "trend" ts).max? ∧
     z.min_trend = (presentVals "trend" ts).min?) ∧
    (∀ key : String, presentVals key ts = [] →
        meanOrNone (presentVals key ts) = none) ∧
    (∀ key : String, presentVals key ts ≠ [] →
        meanOrNone (presentVals key ts) =
          some ((presentVals key ts).sum / (presentVals key ts).length)) := by
  have hne : ts ≠ [] := by
    intro hnil
    subst hnil
    rw [create_zone_summary] at h
    cases Except.ok.inj h
  obtain ⟨z', hz', _, _, hmt, hbs, hr2, hrm, hma, hci, hcu, hor, hmax, hmin, _⟩ :=
    create_zone_summary_ok_spec zt ts si zds zi (some z) hne h
  cases Option.some.inj hz'
  refine ⟨⟨hmt, hbs, hr2, hrm, hma, hci, hcu, hor, hmax, hmin⟩, ?_, ?_⟩
  · intro key hk
    simp [meanOrNone, hk]
  · intro key hk
    simp [meanOrNone, List.isEmpty_iff, hk]

/-- A transect whose `trend` is null but all other fields populated. -/
def exNullTrendTransect : Transect :=
  { properties :=
      [ ("id", some 2), ("site_id", none), ("trend", none),
        ("beach_slope", some (1/10)), ("r2_score", some (1/2)),
        ("rmse", some 10), ("along_dist", some 100) ]
    geometry := none }

/-- Witness for C8 on a two-member zone whose second member has a null
trend. -/
theorem create_zone_summary_field_aggregates_witness :
    create_zone_summary "mixed" [mkExTransect 1 (-1) 0, exNullTrendTransect]
        0 none 1 =
      .ok (some (okSummary (create_zone_summary "mixed"
        [mkExTransect 1 (-1) 0, exNullTrendTransect] 0 none 1))) ∧
    (okSummary (create_zone_summary "mixed"
        [mkExTransect 1 (-1) 0, exNullTrendTransect] 0 none 1)).mean_trend =
      meanOrNone (presentVals "trend"
        [mkExTransect 1 (-1) 0, exNullTrendTransect]) := by
  have h : create_zone_summary "mixed"
      [mkExTransect 1 (-1) 0, exNullTrendTransect] 0 none 1 =
      .ok (some (okSummary (create_zone_summary "mixed"
        [mkExTransect 1 (-1) 0, exNullTrendTransect] 0 none 1))) := by
    with_unfolding_all rfl
  exact ⟨h, ((create_zone_summary_field_aggregates "mixed"
    [mkExTransect 1 (-1) 0, exNullTrendTransect] 0 none 1 _ h).1).1⟩

/-- Whether a fallible computation succeeded. -/
def exceptIsOk {ε α : Type} : Except ε α → Bool
  | .ok _ => true
  | .error _ => false

theorem exceptIsOk_iff_exists {ε α : Type} (r : Except ε α) :
    exceptIsOk r = true ↔ ∃ v, r = .ok v := by
  cases r <;> simp [exceptIsOk]

theorem except_bind_isOk {ε α β : Type} (a : Except ε α)
    (f : α → Except ε β) :
    exceptIsOk (a >>= f) = true ↔
      ∃ v, a = .ok v ∧ exceptIsOk (f v) = true := by
  cases a with
  | ok v => rw [ok_bind]; simp
  | error e => rw [error_bind]; simp [exceptIsOk]

/-- The key is present in the property mapping (its value may be null). -/
def hasKey (props : Props) (key : String) : Bool :=
  (props.lookup key).isSome

theorem dictGet_ok_iff (props : Props) (key : String) :
    exceptIsOk (dictGet props key) = true ↔ hasKey props key = true := by
  rw [dictGet, hasKey]
  cases props.lookup key <;> simp [exceptIsOk]

theorem dictGet_eq_ok_lookup (props : Props) (key : String) (v : Option ℚ)
    (h : dictGet props key = .ok v) : props.lookup key = some v := by
  rw [dictGet] at h
  cases hl : props.lookup key with
  | none => rw [hl] at h; cases h
  | some w => rw [hl] at h; cases h; rfl

theorem collectRequired_isOk_iff (key : String) :
    ∀ ts : List Transect,
      exceptIsOk (collectRequired key ts) = true ↔
        ∀ t ∈ ts, hasKey t.properties key = true
  | [] => by simp [collectRequired, exceptIsOk]
  | t :: ts => by
      rw [collectRequired]
      rw [except_bind_isOk]
      constructor
      · intro ⟨v, hv, hrest⟩
        rw [except_bind_isOk] at hrest
        obtain ⟨rest, hrest, _⟩ := hrest
        intro x hx
        rcases List.mem_cons.mp hx with h1 | h1
        · subst h1
          exact (dictGet_ok_iff x.properties key).mp (by rw [hv]; rfl)
        · exact (collectRequired_isOk_iff key ts).mp (by rw [hrest]; rfl) x h1
      · intro hall
        obtain ⟨v, hv⟩ := (exceptIsOk_iff_exists _).mp
          ((dictGet_ok_iff t.properties key).mpr
            (hall t (List.mem_cons_self t ts)))
        refine ⟨v, hv, ?_⟩
        rw [except_bind_isOk]
        obtain ⟨rest, hrest⟩ := (exceptIsOk_iff_exists _).mp
          ((collectRequired_isOk_iff key ts).mpr
            (fun y hy => hall y (List.mem_cons_of_mem t hy)))
        refine ⟨rest, hrest, ?_⟩
        cases v <;> rfl

theorem collectIds_isOk_iff :
    ∀ ts : List Transect,
      exceptIsOk (collectIds ts) = true ↔
        ∀ t ∈ ts, hasKey t.properties "id" = true
  | [] => by simp [collectIds, exceptIsOk]
  | t :: ts => by
      rw [collectIds]
      rw [except_bind_isOk]
      constructor
      · intro ⟨v, hv, hrest⟩
        rw [except_bind_isOk] at hrest
        obtain ⟨rest, hrest, _⟩ := hrest
        intro x hx
        rcases List.mem_cons.mp hx with h1 | h1
        · subst h1
          exact (dictGet_ok_iff x.properties "id").mp (by rw [hv]; rfl)
        · exact (collectIds_isOk_iff ts).mp (by rw [hrest]; rfl) x h1
      · intro hall
        obtain ⟨v, hv⟩ := (exceptIsOk_iff_exists _).mp
          ((dictGet_ok_iff t.properties "id").mpr
            (hall t (List.mem_cons_self t ts)))
        refine ⟨v, hv, ?_⟩
        rw [except_bind_isOk]
        obtain ⟨rest, hrest⟩ := (exceptIsOk_iff_exists _).mp
          ((collectIds_isOk_iff ts).mpr
            (fun y hy => hall y (List.mem_cons_of_mem t hy)))
        exact ⟨rest, hrest, rfl⟩

theorem propGet_ne_none_iff (props : Props) (key : String) :
    propGet props key ≠ none ↔ ∃ q, props.lookup key = some (some q) := by
  rw [propGet]
  cases h : props.lookup key with
  | none => simp
  | some v => cases v <;> simp

/-- C10 (amended): on a non-empty member list, `create_zone_summary`
succeeds iff every member has the `trend`, `beach_slope`, `r2_score` and
`id` keys (their values may be null) and the **first and last** members
carry a non-null `along_dist` (a null `along_dist` would make the length
subtraction raise `TypeError`). The keys `rmse`, `mae`, `cil`, `ciu` and
`orientation` do not appear in the requirement at all: they may be wholly
absent from any member. -/
theorem create_zone_summary_isOk_iff (zt : String) (ts : List Transect)
    (si : ℕ) (zds : Option (List (String × ZoneDef))) (zi : ℕ)
    (hne : ts ≠ []) :
    exceptIsOk (create_zone_summary zt ts si zds zi) = true ↔
      ((∀ t ∈ ts, hasKey t.properties "trend" = true ∧
          hasKey t.properties "beach_slope" = true ∧
          hasKey t.properties "r2_score" = true ∧
          hasKey t.properties "id" = true) ∧
        propGet (ts.head hne).properties "along_dist" ≠ none ∧
        propGet (ts.getLast hne).properties "along_dist" ≠ none) := by
  cases ts with
  | nil => exact absurd rfl hne
  | cons first more =>
      rw [create_zone_summary]
      constructor
      · intro hok
        obtain ⟨trends, htr, hok⟩ := (except_bind_isOk _ _).mp hok
        obtain ⟨slopes, hsl, hok⟩ := (except_bind_isOk _ _).mp hok
        obtain ⟨r2s, hr2, hok⟩ := (except_bind_isOk _ _).mp hok
        obtain ⟨start_dist, hsd, hok⟩ := (except_bind_isOk _ _).mp hok
        obtain ⟨end_dist, hed, hok⟩ := (except_bind_isOk _ _).mp hok
        obtain ⟨length_m, hlm, hok⟩ := (except_bind_isOk _ _).mp hok
        obtain ⟨start_id, hsi2, hok⟩ := (except_bind_isOk _ _).mp hok
        obtain ⟨end_id, hei, hok⟩ := (except_bind_isOk _ _).mp hok
        obtain ⟨ids, hids, hok⟩ := (except_bind_isOk _ _).mp hok
        have htrends := (collectRequired_isOk_iff "trend" _).mp
          (by rw [htr]; rfl)
        have hslopes := (collectRequired_isOk_iff "beach_slope" _).mp
          (by rw [hsl]; rfl)
        have hr2s := (collectRequired_isOk_iff "r2_score" _).mp
          (by rw [hr2]; rfl)
        have hidkeys := (collectIds_isOk_iff _).mp (by rw [hids]; rfl)
        obtain ⟨sq, hsq⟩ : ∃ q, start_dist = some q := by
          cases hcase : start_dist with
          | none =>
              rw [hcase] at hlm
              cases end_dist <;> cases hlm
          | some q => exact ⟨q, rfl⟩
        obtain ⟨eq2, heq2⟩ : ∃ q, end_dist = some q := by
          cases hcase : end_dist with
          | none =>
              rw [hcase] at hlm
              cases start_dist <;> cases hlm
          | some q => exact ⟨q, rfl⟩
        refine ⟨fun t ht => ⟨htrends t ht, hslopes t ht, hr2s t ht,
          hidkeys t ht⟩, ?_, ?_⟩
        · rw [List.head_cons, propGet, dictGet_eq_ok_lookup _ _ _ hsd, hsq]
          simp
        · rw [propGet, dictGet_eq_ok_lookup _ _ _ hed, heq2]
          simp
      · intro ⟨hall, hhead, hlast⟩
        obtain ⟨trends, htr⟩ := (exceptIsOk_iff_exists _).mp
          ((collectRequired_isOk_iff "trend" _).mpr
            (fun t ht => (hall t ht).1))
        obtain ⟨slopes, hsl⟩ := (exceptIsOk_iff_exists _).mp
          ((collectRequired_isOk_iff "beach_slope" _).mpr
            (fun t ht => (hall t ht).2.1))
        obtain ⟨r2s, hr2⟩ := (exceptIsOk_iff_exists _).mp
          ((collectRequired_isOk_iff "r2_score" _).mpr
            (fun t ht => (hall t ht).2.2.1))
        obtain ⟨ids, hids⟩ := (exceptIsOk_iff_exists _).mp
          ((collectIds_isOk_iff _).mpr (fun t ht => (hall t ht).2.2.2))
        obtain ⟨sq, hsq⟩ := (propGet_ne_none_iff _ _).mp
          (by rw [List.head_cons] at hhead; exact hhead)
        obtain ⟨eq2, heq2⟩ := (propGet_ne_none_iff _ _).mp hlast
        have hsd : dictGet first.properties "along_dist" = .ok (some sq) := by
          rw [dictGet, hsq]
        have hed : dictGet ((first :: more).getLast (by simp)).properties
            "along_dist" = .ok (some eq2) := by
          rw [dictGet, heq2]
        obtain ⟨fid, hfidlk⟩ : ∃ v, first.properties.lookup "id" = some v := by
          have := (hall first (List.mem_cons_self first more)).2.2.2
          rw [hasKey] at this
          exact Option.isSome_iff_exists.mp this
        have hfid : dictGet first.properties "id" = .ok fid := by
          rw [dictGet, hfidlk]
        obtain ⟨lid, hlidlk⟩ :
            ∃ v, ((first :: more).getLast (by simp)).properties.lookup "id" =
              some v := by
          have hmem : (first :: more).getLast (by simp) ∈ first :: more :=
            List.getLast_mem _
          have := (hall _ hmem).2.2.2
          rw [hasKey] at this
          exact Option.isSome_iff_exists.mp this
        have hlid : dictGet ((first :: more).getLast (by simp)).properties
            "id" = .ok lid := by
          rw [dictGet, hlidlk]
        rw [htr, ok_bind, hsl, ok_bind, hr2, ok_bind, hsd, ok_bind, hed,
          ok_bind]
        rw [show lengthMeters (some sq) (some eq2) = .ok |eq2 - sq| from rfl,
          ok_bind]
        rw [hfid, ok_bind, hlid, ok_bind, hids, ok_bind]
        rfl

/-- A transect with `id`, `trend`, `beach_slope` and `r2_score` keys but no
`along_dist` key at all. -/
def exNoAlongDistTransect : Transect :=
  { properties :=
      [ ("id", some 9), ("trend", some 0), ("beach_slope", some (1/20)),
        ("r2_score", some (1/2)) ]
    geometry := none }

/-- C10 counterexample: summarization succeeds on a member list whose
middle member has no `along_dist` key — only the first and last members'
`along_dist` is ever read, so "every member must contain `along_dist`" is
false. -/
theorem create_zone_summary_ok_without_middle_along_dist :
    exceptIsOk (create_zone_summary "stable"
      [mkExTransect 1 0 0, exNoAlongDistTransect, mkExTransect 3 0 200]
      0 none 1) = true ∧
    exNoAlongDistTransect ∈
      [mkExTransect 1 0 0, exNoAlongDistTransect, mkExTransect 3 0 200] ∧
    hasKey exNoAlongDistTransect.properties "along_dist" = false := by
  refine ⟨by with_unfolding_all rfl, by simp, by with_unfolding_all rfl⟩

/-- Witness for the amended C10: a two-member list carrying all required
keys (the second member's `trend` even null) satisfies the right-hand side
of the characterization, so summarization succeeds. -/
theorem create_zone_summary_isOk_iff_witness :
    exceptIsOk (create_zone_summary "mixed"
      [mkExTransect 1 0 0, exNullTrendTransect] 0 none 1) = true := by
  refine (create_zone_summary_isOk_iff "mixed"
    [mkExTransect 1 0 0, exNullTrendTransect] 0 none 1
    (List.cons_ne_nil _ _)).mpr ⟨?_, ?_, ?_⟩
  · intro t ht
    rcases List.mem_cons.mp ht with h1 | h1
    · subst h1
      refine ⟨rfl, rfl, rfl, rfl⟩
    · rcases List.mem_cons.mp h1 with h2 | h2
      · subst h2
        refine ⟨rfl, rfl, rfl, rfl⟩
      · cases h2
  · intro hcontra
    exact Option.noConfusion hcontra
  · intro hcontra
    exact Option.noConfusion hcontra

/-- The `transect_count` of an emitted zone entry (0 for the never-occurring
empty-dict entry). -/
def zoneCount (z? : Option ZoneSummary) : ℕ :=
  match z? with
  | some z => z.transect_count
  | none => 0

/-- Total number of transects covered by the emitted zones. -/
def coveredTransects (zs : List (Option ZoneSummary)) : ℕ :=
  (zs.map zoneCount).sum

theorem zoneLoop_min_counts (k : ℕ) (zds : Option (List (String × ZoneDef)))
    (hk : 1 ≤ k) :
    ∀ (rest : List Transect) (i : ℕ) (ct : Option String) (cs : ℕ)
      (curTs : List Transect) (cnt : ℕ) (zones out : List (Option ZoneSummary)),
      (∀ z? ∈ zones, ∃ z, z? = some z ∧ k ≤ z.transect_count) →
      zoneLoop k zds rest i ct cs curTs cnt zones = .ok out →
      ∀ z? ∈ out, ∃ z, z? = some z ∧ k ≤ z.transect_count
  | [], i, ct, cs, curTs, cnt, zones, out => by
      intro hinv h
      cases ct with
      | none =>
          rw [zoneLoop] at h
          cases h
          exact hinv
      | some ct' =>
          rw [zoneLoop] at h
          by_cases hlen : k ≤ curTs.length
          · rw [if_pos hlen] at h
            obtain ⟨z?, hz, h⟩ := except_bind_ok h
            cases h
            have hne : curTs ≠ [] := by
              intro hnil
              subst hnil
              simp at hlen
              omega
            obtain ⟨z, hzeq, _, hcount, _⟩ :=
              create_zone_summary_ok_spec ct' curTs cs zds cnt z? hne hz
            intro w hw
            rcases List.mem_append.mp hw with h1 | h1
            · exact hinv w h1
            · rcases List.mem_singleton.mp h1 with rfl
              exact ⟨z, hzeq, hcount ▸ hlen⟩
          · rw [if_neg hlen] at h
            cases h
            exact hinv
  | t :: rest, i, ct, cs, curTs, cnt, zones, out => by
      intro hinv h
      rw [zoneLoop] at h
      obtain ⟨zt, hzt, h⟩ := except_bind_ok h
      by_cases hsame : some zt = ct
      · rw [if_pos hsame] at h
        exact zoneLoop_min_counts k zds hk rest (i + 1) ct cs
          (curTs ++ [t]) cnt zones out hinv h
      · rw [if_neg hsame] at h
        cases ct with
        | none =>
            replace h : zoneLoop k zds rest (i + 1) (some zt) i [t] cnt
                zones = Except.ok out := h
            exact zoneLoop_min_counts k zds hk rest (i + 1) (some zt) i
              [t] cnt zones out hinv h
        | some ct' =>
            replace h : (if k ≤ curTs.length then
                (do
                  let z ← create_zone_summary ct' curTs cs zds cnt
                  zoneLoop k zds rest (i + 1) (some zt) i [t] (cnt + 1)
                    (zones ++ [z]))
                else zoneLoop k zds rest (i + 1) (some zt) i [t] cnt
                  zones) = Except.ok out := h
            by_cases hlen : k ≤ curTs.length
            · rw [if_pos hlen] at h
              obtain ⟨z?, hz, h⟩ := except_bind_ok h
              have hne : curTs ≠ [] := by
                intro hnil
                subst hnil
                simp at hlen
                omega
              obtain ⟨z, hzeq, _, hcount, _⟩ :=
                create_zone_summary_ok_spec ct' curTs cs zds cnt z? hne hz
              refine zoneLoop_min_counts k zds hk rest (i + 1) (some zt) i
                [t] (cnt + 1) (zones ++ [z?]) out ?_ h
              intro w hw
              rcases List.mem_append.mp hw with h1 | h1
              · exact hinv w h1
              · rcases List.mem_singleton.mp h1 with rfl
                exact ⟨z, hzeq, hcount ▸ hlen⟩
            · rw [if_neg hlen] at h
              exact zoneLoop_min_counts k zds hk rest (i + 1) (some zt) i
                [t] cnt zones out hinv h

theorem zoneCount_le (ct' : String) (curTs : List Transect) (cs : ℕ)
    (zds : Option (List (String × ZoneDef))) (cnt : ℕ)
    (z? : Option ZoneSummary)
    (hz : create_zone_summary ct' curTs cs zds cnt = .ok z?) :
    zoneCount z? ≤ curTs.length := by
  cases curTs with
  | nil =>
      rw [create_zone_summary] at hz
      cases hz
      exact Nat.le_refl 0
  | cons first more =>
      obtain ⟨z, hzeq, _, hcount, _⟩ :=
        create_zone_summary_ok_spec ct' (first :: more) cs zds cnt z?
          (List.cons_ne_nil _ _) hz
      subst hzeq
      exact Nat.le_of_eq hcount

theorem coveredTransects_append (zs : List (Option ZoneSummary))
    (z? : Option ZoneSummary) :
    coveredTransects (zs ++ [z?]) = coveredTransects zs + zoneCount z? := by
  simp [coveredTransects]

theorem zoneLoop_covered_le (k : ℕ) (zds : Option (List (String × ZoneDef))) :
    ∀ (rest : List Transect) (i : ℕ) (ct : Option String) (cs : ℕ)
      (curTs : List Transect) (cnt : ℕ) (zones out : List (Option ZoneSummary)),
      zoneLoop k zds rest i ct cs curTs cnt zones = .ok out →
      coveredTransects out ≤
        coveredTransects zones + curTs.length + rest.length
  | [], i, ct, cs, curTs, cnt, zones, out => by
      intro h
      cases ct with
      | none =>
          rw [zoneLoop] at h
          cases h
          omega
      | some ct' =>
          rw [zoneLoop] at h
          by_cases hlen : k ≤ curTs.length
          · rw [if_pos hlen] at h
            obtain ⟨z?, hz, h⟩ := except_bind_ok h
            cases h
            have := zoneCount_le ct' curTs cs zds cnt z? hz
            rw [coveredTransects_append]
            omega
          · rw [if_neg hlen] at h
            cases h
            omega
  | t :: rest, i, ct, cs, curTs, cnt, zones, out => by
      intro h
      rw [zoneLoop] at h
      obtain ⟨zt, hzt, h⟩ := except_bind_ok h
      by_cases hsame : some zt = ct
      · rw [if_pos hsame] at h
        have := zoneLoop_covered_le k zds rest (i + 1) ct cs
          (curTs ++ [t]) cnt zones out h
        simp only [List.length_append, List.length_cons, List.length_nil] at this ⊢
        omega
      · rw [if_neg hsame] at h
        cases ct with
        | none =>
            replace h : zoneLoop k zds rest (i + 1) (some zt) i [t] cnt
                zones = Except.ok out := h
            have := zoneLoop_covered_le k zds rest (i + 1) (some zt) i
              [t] cnt zones out h
            simp only [List.length_cons, List.length_nil] at this ⊢
            omega
        | some ct' =>
            replace h : (if k ≤ curTs.length then
                (do
                  let z ← create_zone_summary ct' curTs cs zds cnt
                  zoneLoop k zds rest (i + 1) (some zt) i [t] (cnt + 1)
                    (zones ++ [z]))
                else zoneLoop k zds rest (i + 1) (some zt) i [t] cnt
                  zones) = Except.ok out := h
            by_cases hlen : k ≤ curTs.length
            · rw [if_pos hlen] at h
              obtain ⟨z?, hz, h⟩ := except_bind_ok h
              have hle := zoneCount_le ct' curTs cs zds cnt z? hz
              have := zoneLoop_covered_le k zds rest (i + 1) (some zt) i
                [t] (cnt + 1) (zones ++ [z?]) out h
              rw [coveredTransects_append] at this
              simp only [List.length_cons, List.length_nil] at this ⊢
              omega
            · rw [if_neg hlen] at h
              have := zoneLoop_covered_le k zds rest (i + 1) (some zt) i
                [t] cnt zones out h
              simp only [List.length_cons, List.length_nil] at this ⊢
              omega

theorem zoneLoop_covered_eq_of_min_le_one (k : ℕ)
    (zds : Option (List (String × ZoneDef))) (hk : k ≤ 1) :
    ∀ (rest : List Transect) (i : ℕ) (ct : Option String) (cs : ℕ)
      (curTs : List Transect) (cnt : ℕ) (zones out : List (Option ZoneSummary)),
      (ct = none → curTs = []) →
      (ct.isSome = true → curTs ≠ []) →
      zoneLoop k zds rest i ct cs curTs cnt zones = .ok out →
      coveredTransects out =
        coveredTransects zones + curTs.length + rest.length
  | [], i, ct, cs, curTs, cnt, zones, out => by
      intro hnone hsome h
      cases ct with
      | none =>
          rw [zoneLoop] at h
          cases h
          rw [hnone rfl]
          simp
      | some ct' =>
          rw [zoneLoop] at h
          have hne : curTs ≠ [] := hsome rfl
          have hlen : k ≤ curTs.length := by
            have : 1 ≤ curTs.length := by
              cases curTs with
              | nil => exact absurd rfl hne
              | cons a l => simp
            omega
          rw [if_pos hlen] at h
          obtain ⟨z?, hz, h⟩ := except_bind_ok h
          cases h
          obtain ⟨z, hzeq, _, hcount, _⟩ :=
            create_zone_summary_ok_spec ct' curTs cs zds cnt z? hne hz
          subst hzeq
          rw [coveredTransects_append]
          simp only [zoneCount, hcount, List.length_nil]
          omega
  | t :: rest, i, ct, cs, curTs, cnt, zones, out => by
      intro hnone hsome h
      rw [zoneLoop] at h
      obtain ⟨zt, hzt, h⟩ := except_bind_ok h
      by_cases hsame : some zt = ct
      · rw [if_pos hsame] at h
        have hcur : curTs ≠ [] := by
          apply hsome
          rw [← hsame]
          rfl
        have := zoneLoop_covered_eq_of_min_le_one k zds hk rest (i + 1) ct
          cs (curTs ++ [t]) cnt zones out
          (fun hc => absurd hc (by rw [← hsame]; simp))
          (fun _ => by simp) h
        simp only [List.length_append, List.length_cons, List.length_nil] at this ⊢
        omega
      · rw [if_neg hsame] at h
        cases ct with
        | none =>
            replace h : zoneLoop k zds rest (i + 1) (some zt) i [t] cnt
                zones = Except.ok out := h
            have := zoneLoop_covered_eq_of_min_le_one k zds hk rest (i + 1)
              (some zt) i [t] cnt zones out (fun hc => by cases hc)
              (fun _ => List.cons_ne_nil _ _) h
            rw [hnone rfl]
            simp only [List.length_cons, List.length_nil] at this ⊢
            omega
        | some ct' =>
            replace h : (if k ≤ curTs.length then
                (do
                  let z ← create_zone_summary ct' curTs cs zds cnt
                  zoneLoop k zds rest (i + 1) (some zt) i [t] (cnt + 1)
                    (zones ++ [z]))
                else zoneLoop k zds rest (i + 1) (some zt) i [t] cnt
                  zones) = Except.ok out := h
            have hne : curTs ≠ [] := hsome rfl
            have hlen : k ≤ curTs.length := by
              have : 1 ≤ curTs.length := by
                cases curTs with
                | nil => exact absurd rfl hne
                | cons a l => simp
              omega
            rw [if_pos hlen] at h
            obtain ⟨z?, hz, h⟩ := except_bind_ok h
            obtain ⟨z, hzeq, _, hcount, _⟩ :=
              create_zone_summary_ok_spec ct' curTs cs zds cnt z? hne hz
            subst hzeq
            have := zoneLoop_covered_eq_of_min_le_one k zds hk rest (i + 1)
              (some zt) i [t] (cnt + 1) (zones ++ [some z]) out
              (fun hc => by cases hc) (fun _ => List.cons_ne_nil _ _) h
            rw [coveredTransects_append] at this
            simp only [zoneCount, hcount, List.length_cons,
              List.length_nil] at this ⊢
            omega

/-- C4: for `min_zone_length = k ≥ 1`, every zone emitted by the segmenter
covers at least `k` transects, and the total number of transects covered
by zones at `min_zone_length = 1` is at least the number covered at `k`
(at 1 every run is emitted, so coverage is the whole input; at `k` it can
only be a subset). -/
theorem min_zone_length_law (ts : List Transect) (k : ℕ)
    (zds : Option (List (String × ZoneDef)))
    (zs1 zsk : List (Option ZoneSummary)) (hk : 1 ≤ k)
    (h1 : identify_narrative_zones ts 1 zds = .ok zs1)
    (hkk : identify_narrative_zones ts k zds = .ok zsk) :
    (∀ z? ∈ zsk, ∃ z, z? = some z ∧ k ≤ z.transect_count) ∧
    coveredTransects zsk ≤ coveredTransects zs1 := by
  rw [identify_narrative_zones] at h1 hkk
  cases ts with
  | nil =>
      simp only [List.isEmpty_nil, if_true] at h1 hkk
      cases h1
      cases hkk
      exact ⟨by simp, Nat.le_refl _⟩
  | cons t ts' =>
      simp only [List.isEmpty_cons, Bool.false_eq_true, if_false] at h1 hkk
      constructor
      · exact zoneLoop_min_counts k zds hk (t :: ts') 0 none 0 [] 1 [] zsk
          (by simp) hkk
      · have hle := zoneLoop_covered_le k zds (t :: ts') 0 none 0 [] 1 []
          zsk hkk
        have heq := zoneLoop_covered_eq_of_min_le_one 1 zds (Nat.le_refl 1)
          (t :: ts') 0 none 0 [] 1 [] zs1 (fun _ => rfl)
          (fun hc => by simp at hc) h1
        simp only [coveredTransects, List.map_nil, List.sum_nil,
          List.length_nil] at hle heq ⊢
        omega

/-- The zone list of a successful segmentation run (names the concretely
computed value in witnesses). -/
def okZones (r : Except PyErr (List (Option ZoneSummary))) :
    List (Option ZoneSummary) :=
  match r with
  | .ok zs => zs
  | .error _ => []

/-- Witness for C4 on the seven-transect example at `k = 3`. -/
theorem min_zone_length_law_witness :
    identify_narrative_zones exSevenTransects 1 none =
      .ok (okZones (identify_narrative_zones exSevenTransects 1 none)) ∧
    identify_narrative_zones exSevenTransects 3 none =
      .ok (okZones (identify_narrative_zones exSevenTransects 3 none)) ∧
    ((∀ z? ∈ okZones (identify_narrative_zones exSevenTransects 3 none),
        ∃ z, z? = some z ∧ 3 ≤ z.transect_count) ∧
      coveredTransects
          (okZones (identify_narrative_zones exSevenTransects 3 none)) ≤
        coveredTransects
          (okZones (identify_narrative_zones exSevenTransects 1 none))) := by
  have ha : identify_narrative_zones exSevenTransects 1 none =
      .ok (okZones (identify_narrative_zones exSevenTransects 1 none)) := by
    with_unfolding_all rfl
  have hb : identify_narrative_zones exSevenTransects 3 none =
      .ok (okZones (identify_narrative_zones exSevenTransects 3 none)) := by
    with_unfolding_all rfl
  exact ⟨ha, hb, min_zone_length_law exSevenTransects 3 none _ _
    (by omega) ha hb⟩

/-- The zone types of the emitted zones, in order. -/
def zoneTypes (zs : List (Option ZoneSummary)) : List String :=
  zs.map (fun z? => (z?.map ZoneSummary.zone_type).getD "")

theorem zoneTypes_append_some (zs : List (Option ZoneSummary))
    (z : ZoneSummary) :
    zoneTypes (zs ++ [some z]) = zoneTypes zs ++ [z.zone_type] := by
  simp [zoneTypes]

theorem zoneLoop_types_chain (k : ℕ) (zds : Option (List (String × ZoneDef)))
    (hk : k ≤ 1) :
    ∀ (rest : List Transect) (i : ℕ) (ct : Option String) (cs : ℕ)
      (curTs : List Transect) (cnt : ℕ) (zones out : List (Option ZoneSummary)),
      (ct = none → zones = []) →
      (ct.isSome = true → curTs ≠ []) →
      List.Chain' (· ≠ ·) (zoneTypes zones ++ ct.toList) →
      zoneLoop k zds rest i ct cs curTs cnt zones = .ok out →
      List.Chain' (· ≠ ·) (zoneTypes out)
  | [], i, ct, cs, curTs, cnt, zones, out => by
      intro hnone hsome hchain h
      cases ct with
      | none =>
          rw [zoneLoop] at h
          cases h
          simpa using hchain
      | some ct' =>
          rw [zoneLoop] at h
          have hne : curTs ≠ [] := hsome rfl
          have hlen : k ≤ curTs.length := by
            have : 1 ≤ curTs.length := by
              cases curTs with
              | nil => exact absurd rfl hne
              | cons a l => simp
            omega
          rw [if_pos hlen] at h
          obtain ⟨z?, hz, h⟩ := except_bind_ok h
          cases h
          obtain ⟨z, hzeq, htype, _⟩ :=
            create_zone_summary_ok_spec ct' curTs cs zds cnt z? hne hz
          subst hzeq
          rw [zoneTypes_append_some, htype]
          simpa using hchain
  | t :: rest, i, ct, cs, curTs, cnt, zones, out => by
      intro hnone hsome hchain h
      rw [zoneLoop] at h
      obtain ⟨zt, hzt, h⟩ := except_bind_ok h
      by_cases hsame : some zt = ct
      · rw [if_pos hsame] at h
        refine zoneLoop_types_chain k zds hk rest (i + 1) ct cs
          (curTs ++ [t]) cnt zones out ?_ ?_ hchain h
        · intro hc
          rw [hc] at hsame
          cases hsame
        · intro _
          simp
      · rw [if_neg hsame] at h
        cases ct with
        | none =>
            replace h : zoneLoop k zds rest (i + 1) (some zt) i [t] cnt
                zones = Except.ok out := h
            refine zoneLoop_types_chain k zds hk rest (i + 1) (some zt) i
              [t] cnt zones out (fun hc => by cases hc)
              (fun _ => List.cons_ne_nil _ _) ?_ h
            rw [hnone rfl]
            simp [zoneTypes]
        | some ct' =>
            replace h : (if k ≤ curTs.length then
                (do
                  let z ← create_zone_summary ct' curTs cs zds cnt
                  zoneLoop k zds rest (i + 1) (some zt) i [t] (cnt + 1)
                    (zones ++ [z]))
                else zoneLoop k zds rest (i + 1) (some zt) i [t] cnt
                  zones) = Except.ok out := h
            have hne : curTs ≠ [] := hsome rfl
            have hlen : k ≤ curTs.length := by
              have : 1 ≤ curTs.length := by
                cases curTs with
                | nil => exact absurd rfl hne
                | cons a l => simp
              omega
            rw [if_pos hlen] at h
            obtain ⟨z?, hz, h⟩ := except_bind_ok h
            obtain ⟨z, hzeq, htype, _⟩ :=
              create_zone_summary_ok_spec ct' curTs cs zds cnt z? hne hz
            subst hzeq
            refine zoneLoop_types_chain k zds hk rest (i + 1) (some zt) i
              [t] (cnt + 1) (zones ++ [some z]) out (fun hc => by cases hc)
              (fun _ => List.cons_ne_nil _ _) ?_ h
            rw [zoneTypes_append_some, htype]
            rw [List.chain'_append]
            refine ⟨by simpa using hchain, List.chain'_singleton _, ?_⟩
            intro x hx y hy
            rw [List.getLast?_concat] at hx
            cases hx
            simp only [Option.toList_some, List.head?_cons, Option.mem_def,
              Option.some.injEq] at hy
            subst hy
            intro hcontra
            exact hsame (by rw [hcontra])
  termination_by rest => rest.length

/-- C2 counterexample: on the seven-transect example with
`min_zone_length = 3` the segmenter emits two consecutive zones of the
same type (`rapid_erosion` twice) — the one-transect `rapid_accretion` run
between them is dropped, leaving equal-typed zones adjacent. -/
theorem adjacent_same_type_zones_at_min_three :
    Except.map zoneTypes (identify_narrative_zones exSevenTransects 3 none) =
      .ok ["rapid_erosion", "rapid_erosion"] ∧
    ¬ List.Chain' (· ≠ ·) ["rapid_erosion", "rapid_erosion"] := by
  constructor
  · with_unfolding_all rfl
  · intro hc
    simp [List.chain'_cons] at hc

/-- C2 (amended): when `min_zone_length ≤ 1` no run is ever dropped, and
then no two consecutive emitted zones share a zone type; for larger
minimums dropped short runs can leave equal-typed zones adjacent. -/
theorem no_adjacent_same_type_zones_min_le_one (ts : List Transect) (k : ℕ)
    (zds : Option (List (String × ZoneDef)))
    (zs : List (Option ZoneSummary)) (hk : k ≤ 1)
    (h : identify_narrative_zones ts k zds = .ok zs) :
    List.Chain' (· ≠ ·) (zoneTypes zs) := by
  rw [identify_narrative_zones] at h
  cases ts with
  | nil =>
      simp only [List.isEmpty_nil, if_true] at h
      cases h
      simp [zoneTypes]
  | cons t ts' =>
      simp only [List.isEmpty_cons, Bool.false_eq_true, if_false] at h
      exact zoneLoop_types_chain k zds hk (t :: ts') 0 none 0 [] 1 [] zs
        (fun _ => rfl) (fun hc => by simp at hc) (by simp [zoneTypes]) h

/-- Witness for the amended C2 at `min_zone_length = 1` on the
seven-transect example. -/
theorem no_adjacent_same_type_zones_witness :
    identify_narrative_zones exSevenTransects 1 none =
      .ok (okZones (identify_narrative_zones exSevenTransects 1 none)) ∧
    List.Chain' (· ≠ ·)
      (zoneTypes (okZones (identify_narrative_zones exSevenTransects 1 none))) := by
  have ha : identify_narrative_zones exSevenTransects 1 none =
      .ok (okZones (identify_narrative_zones exSevenTransects 1 none)) := by
    with_unfolding_all rfl
  exact ⟨ha, no_adjacent_same_type_zones_min_le_one exSevenTransects 1 none _
    (Nat.le_refl 1) ha⟩

theorem dictSet_fresh : ∀ (d : TransectDict) (key : Option ℚ)
    (v : TransectEntry), key ∉ d.map Prod.fst →
      dictSet d key v = d ++ [(key, v)]
  | [], key, v, _ => rfl
  | (k0, w) :: rest, key, v, h => by
      rw [dictSet]
      have hne : ¬ (k0 = key) := by
        intro hc
        exact h (by simp [hc])
      rw [if_neg hne, dictSet_fresh rest key v (fun hm => h (by simp [hm]))]
      simp

theorem transectDictLoop_keys (zds : Option (List (String × ZoneDef))) :
    ∀ (ts : List Transect) (d d' : TransectDict),
      transectDictLoop zds ts d = .ok d' →
      (d.map Prod.fst ++ ts.map transectKey).Nodup →
      d'.map Prod.fst = d.map Prod.fst ++ ts.map transectKey
  | [], d, d', h, _ => by
      rw [transectDictLoop] at h
      cases h
      simp
  | t :: ts, d, d', h, hnd => by
      rw [transectDictLoop] at h
      obtain ⟨tid, htid, h⟩ := except_bind_ok h
      obtain ⟨zt, hzt, h⟩ := except_bind_ok h
      have hkey : transectKey t = tid := by
        have hlk := dictGet_eq_ok_lookup _ _ _ htid
        simp [transectKey, propGet, hlk]
      have hfresh : tid ∉ d.map Prod.fst := by
        intro hm
        obtain ⟨_, _, hdisj⟩ := List.nodup_append.mp hnd
        exact hdisj hm (by
          rw [← hkey]
          exact List.mem_map_of_mem transectKey (List.mem_cons_self t ts))
      rw [dictSet_fresh d tid _ hfresh] at h
      have hnd' : ∀ v : TransectEntry,
          ((d ++ [(tid, v)]).map Prod.fst ++ ts.map transectKey).Nodup := by
        intro v
        simp only [List.map_append, List.map_cons, List.map_nil]
        simp only [List.map_cons, hkey] at hnd
        simpa [List.append_assoc] using hnd
      have := transectDictLoop_keys zds ts _ d' h (hnd' _)
      rw [this]
      simp [← hkey]

/-- The transect-id list of an emitted zone entry. -/
def zoneIdsOf (z? : Option ZoneSummary) : List (Option ℚ) :=
  (z?.map ZoneSummary.transect_ids).getD []

theorem zoneLoop_zone_ids (k : ℕ) (zds : Option (List (String × ZoneDef)))
    (full : List Transect) :
    ∀ (rest : List Transect) (i : ℕ) (ct : Option String) (cs : ℕ)
      (curTs : List Transect) (cnt : ℕ) (zones out : List (Option ZoneSummary)),
      (∀ t ∈ curTs, t ∈ full) →
      (∀ t ∈ rest, t ∈ full) →
      (∀ z? ∈ zones, ∀ v ∈ zoneIdsOf z?, ∃ t ∈ full, transectKey t = v) →
      zoneLoop k zds rest i ct cs curTs cnt zones = .ok out →
      ∀ z? ∈ out, ∀ v ∈ zoneIdsOf z?, ∃ t ∈ full, transectKey t = v
  | [], i, ct, cs, curTs, cnt, zones, out => by
      intro hcur hrest hinv h
      cases ct with
      | none =>
          rw [zoneLoop] at h
          cases h
          exact hinv
      | some ct' =>
          rw [zoneLoop] at h
          by_cases hlen : k ≤ curTs.length
          · rw [if_pos hlen] at h
            obtain ⟨z?, hz, h⟩ := except_bind_ok h
            cases h
            intro w hw
            rcases List.mem_append.mp hw with h1 | h1
            · exact hinv w h1
            · rcases List.mem_singleton.mp h1 with rfl
              cases curTs with
              | nil =>
                  rw [create_zone_summary] at hz
                  cases hz
                  intro v hv
                  cases hv
              | cons c0 cr =>
                  obtain ⟨z, hzeq, _, _, _, _, _, _, _, _, _, _, _, _, hids⟩ :=
                    create_zone_summary_ok_spec ct' (c0 :: cr) cs zds cnt w
                      (List.cons_ne_nil _ _) hz
                  subst hzeq
                  intro v hv
                  rw [show zoneIdsOf (some z) = z.transect_ids from rfl,
                    hids] at hv
                  obtain ⟨t, ht, htv⟩ := List.mem_map.mp hv
                  exact ⟨t, hcur t ht, htv⟩
          · rw [if_neg hlen] at h
            cases h
            exact hinv
  | t :: rest, i, ct, cs, curTs, cnt, zones, out => by
      intro hcur hrest hinv h
      rw [zoneLoop] at h
      obtain ⟨zt, hzt, h⟩ := except_bind_ok h
      have htfull : t ∈ full := hrest t (List.mem_cons_self t rest)
      have hrest' : ∀ x ∈ rest, x ∈ full :=
        fun x hx => hrest x (List.mem_cons_of_mem t hx)
      by_cases hsame : some zt = ct
      · rw [if_pos hsame] at h
        refine zoneLoop_zone_ids k zds full rest (i + 1) ct cs
          (curTs ++ [t]) cnt zones out ?_ hrest' hinv h
        intro x hx
        rcases List.mem_append.mp hx with h1 | h1
        · exact hcur x h1
        · rcases List.mem_singleton.mp h1 with rfl
          exact htfull
      · rw [if_neg hsame] at h
        cases ct with
        | none =>
            replace h : zoneLoop k zds rest (i + 1) (some zt) i [t] cnt
                zones = Except.ok out := h
            refine zoneLoop_zone_ids k zds full rest (i + 1) (some zt) i
              [t] cnt zones out ?_ hrest' hinv h
            intro x hx
            rcases List.mem_singleton.mp hx with rfl
            exact htfull
        | some ct' =>
            replace h : (if k ≤ curTs.length then
                (do
                  let z ← create_zone_summary ct' curTs cs zds cnt
                  zoneLoop k zds rest (i + 1) (some zt) i [t] (cnt + 1)
                    (zones ++ [z]))
                else zoneLoop k zds rest (i + 1) (some zt) i [t] cnt
                  zones) = Except.ok out := h
            by_cases hlen : k ≤ curTs.length
            · rw [if_pos hlen] at h
              obtain ⟨z?, hz, h⟩ := except_bind_ok h
              refine zoneLoop_zone_ids k zds full rest (i + 1) (some zt) i
                [t] (cnt + 1) (zones ++ [z?]) out ?_ hrest' ?_ h
              · intro x hx
                rcases List.mem_singleton.mp hx with rfl
                exact htfull
              · intro w hw
                rcases List.mem_append.mp hw with h1 | h1
                · exact hinv w h1
                · rcases List.mem_singleton.mp h1 with rfl
                  cases curTs with
                  | nil =>
                      rw [create_zone_summary] at hz
                      cases hz
                      intro v hv
                      cases hv
                  | cons c0 cr =>
                      obtain ⟨z, hzeq, _, _, _, _, _, _, _, _, _, _, _, _,
                        hids⟩ := create_zone_summary_ok_spec ct' (c0 :: cr)
                          cs zds cnt w (List.cons_ne_nil _ _) hz
                      subst hzeq
                      intro v hv
                      rw [show zoneIdsOf (some z) = z.transect_ids from rfl,
                        hids] at hv
                      obtain ⟨x, hx, hxv⟩ := List.mem_map.mp hv
                      exact ⟨x, hcur x hx, hxv⟩
            · rw [if_neg hlen] at h
              refine zoneLoop_zone_ids k zds full rest (i + 1) (some zt) i
                [t] cnt zones out ?_ hrest' hinv h
              intro x hx
              rcases List.mem_singleton.mp hx with rfl
              exact htfull

theorem countP_eq_one_of_nodup_mem {α : Type} [DecidableEq α] :
    ∀ (l : List α) (a : α), l.Nodup → a ∈ l →
      l.countP (fun x => decide (x = a)) = 1
  | [], a, _, ha => by cases ha
  | b :: l, a, hnd, ha => by
      rcases List.mem_cons.mp ha with h1 | h1
      · subst h1
        rw [List.countP_cons_of_pos _ _ (by simp)]
        have hnotin : a ∉ l := (List.nodup_cons.mp hnd).1
        rw [List.countP_eq_zero.mpr]
        · intro x hx
          simp only [decide_eq_true_eq]
          intro hc
          exact hnotin (hc ▸ hx)
      · have hba : ¬ (b = a) := by
          intro hc
          exact (List.nodup_cons.mp hnd).1 (hc ▸ h1)
        rw [List.countP_cons_of_neg _ _ (by simpa using hba)]
        exact countP_eq_one_of_nodup_mem l a (List.nodup_cons.mp hnd).2 h1

/-- C9: for a non-empty transect list with unique ids on which the
analysis succeeded (both the zone identification and the
transect-classification map of `analyze_site` are built from the same
list), the map's keys are exactly the transect ids in input order, every
transect appears in exactly one map entry, and every transect id mentioned
by an emitted zone is among the map's keys. -/
theorem analysis_transect_map_consistency (ts : List Transect) (k : ℕ)
    (zds : Option (List (String × ZoneDef))) (d : TransectDict)
    (zs : List (Option ZoneSummary)) (hne : ts ≠ [])
    (hnodup : (ts.map transectKey).Nodup)
    (hctd : create_transect_dict ts zds = .ok d)
    (hizn : identify_narrative_zones ts k zds = .ok zs) :
    d.map Prod.fst = ts.map transectKey ∧
    (∀ t ∈ ts,
      (d.map Prod.fst).countP (fun v => decide (v = transectKey t)) = 1) ∧
    (∀ z? ∈ zs, ∀ v ∈ zoneIdsOf z?, v ∈ d.map Prod.fst) := by
  have hkeys : d.map Prod.fst = ts.map transectKey := by
    have := transectDictLoop_keys zds ts [] d hctd (by simpa using hnodup)
    simpa using this
  refine ⟨hkeys, ?_, ?_⟩
  · intro t ht
    rw [hkeys]
    exact countP_eq_one_of_nodup_mem _ _ hnodup
      (List.mem_map_of_mem transectKey ht)
  · intro z? hz v hv
    rw [identify_narrative_zones] at hizn
    cases ts with
    | nil => exact absurd rfl hne
    | cons t0 ts' =>
        simp only [List.isEmpty_cons, Bool.false_eq_true, if_false] at hizn
        obtain ⟨t, htmem, htv⟩ := zoneLoop_zone_ids k zds (t0 :: ts')
          (t0 :: ts') 0 none 0 [] 1 [] zs (by simp) (fun x hx => hx)
          (by simp) hizn z? hz v hv
        rw [hkeys]
        exact htv ▸ List.mem_map_of_mem transectKey htmem

/-- The transect dict of a successful run (names the concretely computed
value in witnesses). -/
def okDict (r : Except PyErr TransectDict) : TransectDict :=
  match r with
  | .ok d => d
  | .error _ => []

/-- Witness for C9 on the seven-transect example at `k = 3`. -/
theorem analysis_transect_map_consistency_witness :
    (exSevenTransects.map transectKey).Nodup ∧
    create_transect_dict exSevenTransects none =
      .ok (okDict (create_transect_dict exSevenTransects none)) ∧
    ((okDict (create_transect_dict exSevenTransects none)).map Prod.fst =
        exSevenTransects.map transectKey ∧
      (∀ t ∈ exSevenTransects,
        ((okDict (create_transect_dict exSevenTransects none)).map
          Prod.fst).countP (fun v => decide (v = transectKey t)) = 1) ∧
      (∀ z? ∈ okZones (identify_narrative_zones exSevenTransects 3 none),
        ∀ v ∈ zoneIdsOf z?,
          v ∈ (okDict (create_transect_dict exSevenTransects none)).map
            Prod.fst)) := by
  have hnd : (exSevenTransects.map transectKey).Nodup := by decide
  have hctd : create_transect_dict exSevenTransects none =
      .ok (okDict (create_transect_dict exSevenTransects none)) := by
    with_unfolding_all rfl
  have hizn : identify_narrative_zones exSevenTransects 3 none =
      .ok (okZones (identify_narrative_zones exSevenTransects 3 none)) := by
    with_unfolding_all rfl
  exact ⟨hnd, hctd, analysis_transect_map_consistency exSevenTransects 3
    none _ _ (List.cons_ne_nil _ _) hnd hctd hizn⟩

/-- C7: if template substitution fails for a zone's description (with one
of the two substitution errors `str.format` raises, `KeyError` or
`ValueError` — exactly the two the source catches), the renderer does not
propagate the error: it returns the generic fallback description, which
contains the zone's `length_km` and its `transect_count`. The renderer's
total type (`List RToken`, not `Except`) reflects that rendering is never
fatal. -/
theorem narrative_description_fallback (zone : ZoneSummary)
    (zds : Option (List (String × ZoneDef))) (e : PyErr)
    (h : renderTemplate (templateVarsFor zone)
      (descriptionTemplateFor zone
        (zds.getD get_default_zone_definitions)) = .error e) :
    get_zone_narrative_description_custom zone zds =
      fallbackDescription zone ∧
    RToken.num (.fixed 1) (zone.length_meters / 1000) ∈
      fallbackDescription zone ∧
    RToken.num .general (zone.transect_count : ℚ) ∈
      fallbackDescription zone := by
  refine ⟨?_, by simp [fallbackDescription], by simp [fallbackDescription]⟩
  rw [get_zone_narrative_description_custom]
  rw [h]

/-- A rule set whose only definition's template names an unknown
placeholder. -/
def exWeirdZoneDefs : List (String × ZoneDef) :=
  [("weird",
    { priority := some 1
      conditions := []
      logic := none
      description_template := some [.ph "bogus" FormatSpec.general] })]

/-- A zone summary typed `"weird"`, for exercising the fallback path. -/
def exWeirdZone : ZoneSummary :=
  { zone_type := "weird", transect_count := 4, start_index := 0,
    end_index := 3, start_distance := none, end_distance := none,
    length_meters := 2000, start_transect_id := none,
    end_transect_id := none, mean_trend := none, avg_beach_slope := none,
    avg_r2 := none, max_trend := none, min_trend := none, avg_rmse := none,
    avg_mae := none, avg_cil := none, avg_ciu := none,
    avg_orientation := none, transect_ids := [], zone_name := "w",
    narrative_description := [] }

/-- Witness for C7: the unknown placeholder `bogus` raises `KeyError`, and
the description falls back. -/
theorem narrative_description_fallback_witness :
    renderTemplate (templateVarsFor exWeirdZone)
      (descriptionTemplateFor exWeirdZone
        ((some exWeirdZoneDefs).getD get_default_zone_definitions)) =
      .error (.keyError "bogus") ∧
    (get_zone_narrative_description_custom exWeirdZone
        (some exWeirdZoneDefs) = fallbackDescription exWeirdZone ∧
      RToken.num (.fixed 1) (exWeirdZone.length_meters / 1000) ∈
        fallbackDescription exWeirdZone ∧
      RToken.num .general (exWeirdZone.transect_count : ℚ) ∈
        fallbackDescription exWeirdZone) := by
  have h : renderTemplate (templateVarsFor exWeirdZone)
      (descriptionTemplateFor exWeirdZone
        ((some exWeirdZoneDefs).getD get_default_zone_definitions)) =
      .error (.keyError "bogus") := by
    with_unfolding_all rfl
  exact ⟨h, narrative_description_fallback exWeirdZone
    (some exWeirdZoneDefs) (.keyError "bogus") h⟩

/-- A Python float: not-a-number, the two infinities, or a finite value
(modelled as a rational). -/
inductive PyFloat where
  | nan
  | inf
  | ninf
  | finite (q : ℚ)
deriving Repr, DecidableEq

/-- A Python runtime value as `make_json_serializable` sees it. A `geoObj`
is an object with a `__geo_interface__` (modelled by its `type` tag and
`coordinates` payload, plus the `str(obj)` fallback text; `broken` marks
an object whose interface access raises). An `ndarray` is an object with
`tolist`, a `series` one with `to_dict`; `other` is any other object,
carrying its `str(obj)` text. -/
inductive PyVal where
  | none
  | int (n : ℤ)
  | str (s : String)
  | bool (b : Bool)
  | float (f : PyFloat)
  | dict (entries : List (String × PyVal))
  | list (items : List PyVal)
  | tuple (items : List PyVal)
  | geoObj (broken : Bool) (geoType : String) (coordinates : PyVal)
      (reprS : String)
  | ndarray (items : List PyVal)
  | series (entries : List (String × PyVal))
  | other (reprS : String)

/-- The finite sentinel `1e308` that replaces an infinity. -/
def floatSentinel : ℚ := (10 : ℚ) ^ (308 : ℕ)

mutual
/-- Embeds `make_json_serializable` (narrative_zoning.py lines 38-88):
primitives pass through, NaN becomes null, infinities become the `±1e308`
sentinels, dicts/lists/tuples are converted recursively, a geometry-like
object is reduced to its type tag and coordinate payload (the payload
itself is passed through unconverted, as in the source) or, when the
interface access raises, to its string form; `tolist`/`to_dict` objects
are converted through their list/dict forms; anything else becomes its
string form. Total by construction. -/
def makeJsonSerializable : PyVal → PyVal
  | .none => .none
  | .int n => .int n
  | .str s => .str s
  | .bool b => .bool b
  | .float f =>
      match f with
      | .nan => .none
      | .inf => .float (.finite floatSentinel)
      | .ninf => .float (.finite (-floatSentinel))
      | .finite q => .float (.finite q)
  | .dict entries => .dict (mjsEntries entries)
  | .list items => .list (mjsList items)
  | .tuple items => .list (mjsList items)
  | .geoObj broken geoType coordinates reprS =>
      if broken then .str reprS
      else if geoType = "LineString" then
        .dict [("type", .str geoType), ("coordinates", coordinates)]
      else if geoType = "Point" then
        .dict [("type", .str geoType), ("coordinates", coordinates)]
      else
        .dict [("type", .str geoType), ("coordinates", coordinates)]
  | .ndarray items => .list (mjsList items)
  | .series entries => .dict (mjsEntries entries)
  | .other reprS => .str reprS

/-- Elementwise conversion of a list value. -/
def mjsList : List PyVal → List PyVal
  | [] => []
  | v :: rest => makeJsonSerializable v :: mjsList rest

/-- Entrywise conversion of a dict value. -/
def mjsEntries : List (String × PyVal) → List (String × PyVal)
  | [] => []
  | (k, v) :: rest => (k, makeJsonSerializable v) :: mjsEntries rest
end

mutual
/-- A value `json.dumps` serializes under strict JSON rules: primitives,
finite floats, and recursively ready dicts and lists only. -/
def jsonReady : PyVal → Bool
  | .none => true
  | .int _ => true
  | .str _ => true
  | .bool _ => true
  | .float f =>
      match f with
      | .finite _ => true
      | _ => false
  | .dict entries => jsonReadyEntries entries
  | .list items => jsonReadyList items
  | .tuple _ => false
  | .geoObj _ _ _ _ => false
  | .ndarray _ => false
  | .series _ => false
  | .other _ => false

def jsonReadyList : List PyVal → Bool
  | [] => true
  | v :: rest => jsonReady v && jsonReadyList rest

def jsonReadyEntries : List (String × PyVal) → Bool
  | [] => true
  | (_, v) :: rest => jsonReady v && jsonReadyEntries rest
end

mutual
/-- Input wellformedness: every geometry object's coordinate payload is
itself a strict JSON value, as real `__geo_interface__` payloads (nested
tuples of finite floats) are. -/
def geoPayloadsReady : PyVal → Bool
  | .dict entries => geoPayloadsReadyEntries entries
  | .list items => geoPayloadsReadyList items
  | .tuple items => geoPayloadsReadyList items
  | .geoObj _ _ coordinates _ => jsonReady coordinates
  | .ndarray items => geoPayloadsReadyList items
  | .series entries => geoPayloadsReadyEntries entries
  | _ => true

def geoPayloadsReadyList : List PyVal → Bool
  | [] => true
  | v :: rest => geoPayloadsReady v && geoPayloadsReadyList rest

def geoPayloadsReadyEntries : List (String × PyVal) → Bool
  | [] => true
  | (_, v) :: rest => geoPayloadsReady v && geoPayloadsReadyEntries rest
end

mutual
theorem mjs_jsonReady : ∀ v : PyVal, geoPayloadsReady v = true →
    jsonReady (makeJsonSerializable v) = true
  | .none, _ => rfl
  | .int _, _ => rfl
  | .str _, _ => rfl
  | .bool _, _ => rfl
  | .float f, _ => by
      cases f <;> rfl
  | .dict entries, h => by
      rw [geoPayloadsReady] at h
      rw [makeJsonSerializable]
      exact mjsEntries_jsonReady entries h
  | .list items, h => by
      rw [geoPayloadsReady] at h
      rw [makeJsonSerializable]
      exact mjsList_jsonReady items h
  | .tuple items, h => by
      rw [geoPayloadsReady] at h
      rw [makeJsonSerializable]
      exact mjsList_jsonReady items h
  | .geoObj broken geoType coordinates reprS, h => by
      rw [geoPayloadsReady] at h
      rw [makeJsonSerializable]
      cases broken with
      | true => rfl
      | false =>
          by_cases h1 : geoType = "LineString" <;>
            by_cases h2 : geoType = "Point" <;>
            simp [h1, h2, jsonReady, jsonReadyEntries, h]
  | .ndarray items, h => by
      rw [geoPayloadsReady] at h
      rw [makeJsonSerializable]
      exact mjsList_jsonReady items h
  | .series entries, h => by
      rw [geoPayloadsReady] at h
      rw [makeJsonSerializable]
      exact mjsEntries_jsonReady entries h
  | .other _, _ => rfl

theorem mjsList_jsonReady : ∀ items : List PyVal,
    geoPayloadsReadyList items = true →
    jsonReadyList (mjsList items) = true
  | [], _ => rfl
  | v :: rest, h => by
      rw [geoPayloadsReadyList, Bool.and_eq_true] at h
      rw [mjsList, jsonReadyList, Bool.and_eq_true]
      exact ⟨mjs_jsonReady v h.1, mjsList_jsonReady rest h.2⟩

theorem mjsEntries_jsonReady : ∀ entries : List (String × PyVal),
    geoPayloadsReadyEntries entries = true →
    jsonReadyEntries (mjsEntries entries) = true
  | [], _ => rfl
  | (k, v) :: rest, h => by
      rw [geoPayloadsReadyEntries, Bool.and_eq_true] at h
      rw [mjsEntries, jsonReadyEntries, Bool.and_eq_true]
      exact ⟨mjs_jsonReady v h.1, mjsEntries_jsonReady rest h.2⟩
end

/-- C6: `make_json_serializable` is total (a plain function, no error
path): NaN becomes null, the infinities become the `±1e308` sentinels, a
finite float passes through, a geometry-like payload becomes its type tag
plus coordinate payload (or its string form when the interface access
raises), any other non-primitive becomes a string, and — whenever each
geometry coordinate payload is itself JSON-ready, as real geo interfaces
are — the whole output is serializable under strict JSON rules. -/
theorem make_json_serializable_total (v : PyVal) (q : ℚ) (t : String)
    (c : PyVal) (r : String) (hg : geoPayloadsReady v = true) :
    makeJsonSerializable (.float .nan) = .none ∧
    makeJsonSerializable (.float .inf) = .float (.finite floatSentinel) ∧
    makeJsonSerializable (.float .ninf) =
      .float (.finite (-floatSentinel)) ∧
    makeJsonSerializable (.float (.finite q)) = .float (.finite q) ∧
    makeJsonSerializable (.geoObj false t c r) =
      .dict [("type", .str t), ("coordinates", c)] ∧
    makeJsonSerializable (.geoObj true t c r) = .str r ∧
    makeJsonSerializable (.other r) = .str r ∧
    jsonReady (makeJsonSerializable v) = true := by
  refine ⟨rfl, rfl, rfl, rfl, ?_, rfl, rfl, mjs_jsonReady v hg⟩
  rw [makeJsonSerializable]
  by_cases h1 : t = "LineString" <;> by_cases h2 : t = "Point" <;>
    simp [h1, h2]

/-- A nested example value: NaN in a dict, an infinity and a geometry in a
list, and an opaque object. -/
def exPyVal : PyVal :=
  .dict [("a", .float .nan),
         ("b", .list [.float .inf,
            .geoObj false "LineString" (.list [.float (.finite 1)]) "LS"]),
         ("c", .other "obj")]

/-- Witness for C6 on the nested example value. -/
theorem make_json_serializable_total_witness :
    geoPayloadsReady exPyVal = true ∧
    jsonReady (makeJsonSerializable exPyVal) = true := by
  have hg : geoPayloadsReady exPyVal = true := by with_unfolding_all rfl
  exact ⟨hg,
    (make_json_serializable_total exPyVal 0 "" .none "" hg).2.2.2.2.2.2.2⟩
